import Mathlib

/-!
Shallow embedding of the schema-construction core of the `graphql_api`
repository (modules `graphql_api/mapper.py`, `graphql_api/reduce.py` and the
schema-building slice of `graphql_api/api.py`), together with theorems that
settle the frozen claims C1-C10 about it.

Modelling conventions:
* Python type descriptors are embedded as the closed inductive `PyType`,
  covering the constructs exercised by the claims (none-type, scalar classes,
  the JSON alias, enum classes, plain/decorated classes, unions, the
  `UnionFlagType` marker, generic list/set containers and the context class).
  Constructs outside the claims' scope (dataclasses, `Literal`, raw
  `GraphQLType` escape hatches) are not part of the algebra.
* GraphQL type objects have Python object identity; named types are
  arena-allocated (`MState.arena`) and referenced by index, so "identical by
  reference" is index equality.  `GraphQLNonNull`/`GraphQLList` wrappers are
  structural, as in the source where they are freshly constructed wrappers.
* Python dicts are association lists where an insert conses in front and
  `lookup` takes the first hit (dict-update shadowing).
* The mapper registry key is `hash((str(type), as_input, as_mutable, suffix))`
  rendered into a string `"Registry(...)|..."` in the source; it is embedded
  as `RegKey.struct`, a constructor disjoint from plain name strings
  (`RegKey.name`), which models that the rendered hash strings are never equal
  to a GraphQL type name (type names are derived from Python class names,
  which cannot contain `"Registry("`), with the usual assumption that the
  structural hash is collision-free.
-/

/-! ## Python runtime values (used by enum serialization and metadata) -/

mutual

/-- Python runtime values, with just enough structure to model truthiness,
hashability and equality as used by `GraphQLTypeMapper.map_to_enum.serialize`
and by metadata dictionaries. -/
inductive PyValue where
  | noneV
  | intV (n : Int)
  | strV (s : String)
  | boolV (b : Bool)
  | listV (elems : PyValueList)
  | enumV (member : String) (value : PyValue)
  deriving DecidableEq

/-- Lists of Python values (kept as a mutual inductive so that decidable
equality can be derived). -/
inductive PyValueList where
  | nil
  | cons (hd : PyValue) (tl : PyValueList)
  deriving DecidableEq

end

/-- Python truthiness of an embedded value (`if value:`). Enum members use the
default object truthiness (true). -/
def pyTruthy : PyValue → Bool
  | .noneV => false
  | .intV n => n ≠ 0
  | .strV s => s ≠ ""
  | .boolV b => b
  | .listV l => l ≠ .nil
  | .enumV _ _ => true

/-- Whether a value is hashable (`isinstance(value, collections.abc.Hashable)`):
lists are the embedded unhashable values. -/
def pyHashable : PyValue → Bool
  | .listV _ => false
  | _ => true

/-! ## Decorator annotations (`_graphql` / `_schemas`) -/

/-- Keys of a member's metadata dictionary: either a plain string key or a
`GraphQLMetaKey` enum member (the source uses both, e.g. the string
`"graphql_type"` and the enum member `GraphQLMetaKey.resolve_to_mutable`). -/
inductive MetaKey where
  | strK (s : String)
  | resolveToMutable
  | resolveToSelf
  | nativeMiddleware
  | errorProtection
  deriving DecidableEq

/-- The per-schema record stored in a decorated object's `_schemas` dictionary.
The source stores a plain dict with the keys `"graphql_type"`, `"defined_on"`
and `"meta"`; `defined_on == type_` is embedded as the boolean
`defined_on_self` (object comparison against the annotated class itself). -/
structure SchemaRecord where
  graphql_type : Option String := none
  defined_on_self : Bool := false
  meta : List (MetaKey × PyValue) := []
  deriving DecidableEq

/-- The decoration state of a Python function/class: the `_graphql` flag and
the `_schemas` dictionary keyed by schema identity (`none` is the wildcard
`None` key meaning "valid for any schema").  `schemas = none` models a missing
or non-dict `_schemas` attribute. -/
structure Ann where
  graphql : Bool := false
  schemas : Option (List (Option Nat × SchemaRecord)) := none
  deriving DecidableEq

/-- Look up the per-schema record as the source does:
`schemas_dict.get(schema, schemas_dict.get(None))`. -/
def schemasLookup (d : List (Option Nat × SchemaRecord)) (schema : Option Nat) :
    Option SchemaRecord :=
  match d.lookup schema with
  | some r => some r
  | none => d.lookup none

/-- Faithful embedding of `is_graphql(obj, schema)` from `mapper.py`: the
object is decorated, `_schemas` is a dict, and the schema (or the wildcard
`None`) has an entry. -/
def is_graphql (a : Ann) (schema : Option Nat) : Bool :=
  a.graphql &&
    match a.schemas with
    | some d => (d.lookup schema).isSome || (d.lookup none).isSome
    | none => false

/-- Embedding of `get_value(obj, schema, "graphql_type")`.  The source's
`get_value` reads a string key out of the per-schema dict; the fixed keys used
by the code are embedded as fields of `SchemaRecord`.  The `if schema_info:`
truthiness test is omitted because records in the embedding correspond to
decorator-populated dicts, which are never empty. -/
def get_graphql_type (a : Ann) (schema : Option Nat) : Option String :=
  if is_graphql a schema then
    match a.schemas with
    | some d => (schemasLookup d schema).bind (·.graphql_type)
    | none => none
  else none

/-- Embedding of `get_value(obj, schema, "meta")`, returning the member's
metadata dictionary (empty when absent). -/
def get_meta (a : Ann) (schema : Option Nat) : List (MetaKey × PyValue) :=
  if is_graphql a schema then
    match a.schemas with
    | some d => ((schemasLookup d schema).map (·.meta)).getD []
    | none => []
  else []

/-- Embedding of `get_value(obj, schema, "defined_on") == type_`. -/
def defined_on_self (a : Ann) (schema : Option Nat) : Bool :=
  if is_graphql a schema then
    match a.schemas with
    | some d => ((schemasLookup d schema).map (·.defined_on_self)).getD false
    | none => false
  else false

/-- Faithful embedding of `_matches_criterion(func, schema, mutable)`. -/
def _matches_criterion (a : Ann) (schema : Option Nat) (mutable : Bool) : Bool :=
  get_graphql_type a schema = some "field" ||
    (mutable && get_graphql_type a schema = some "mutable_field")

/-! ## Class members and `get_class_funcs` -/

/-- A member of a Python class as seen by `inspect.getmembers`: a property
(with optional getter/setter, each carrying its decoration), a callable, or a
plain non-callable attribute.  Only the decoration state matters to the
eager part of the mapper (function bodies are consumed lazily by thunks, which
are embedded separately as `PyFunc`). -/
inductive Member where
  | prop (fget fset : Option Ann)
  | call (a : Ann)
  | plain (a : Ann)
  deriving DecidableEq

/-- Whether a name is dunder-shaped (`key.startswith("__") and
key.endswith("__")`), computed over the character list. -/
def isDunder (key : String) : Bool :=
  "__".data.isPrefixOf key.data && "__".data.isSuffixOf key.data

/-- The MRO walk of `get_class_funcs`: collect each named member once, most
derived wins, skipping dunder names. -/
def collectMro (mro : List (List (String × Member))) : List (String × Member) :=
  mro.foldl
    (fun acc level =>
      level.foldl
        (fun acc km =>
          if ¬ isDunder km.1 && acc.all (fun item => item.1 ≠ km.1) then
            acc ++ [km]
          else acc)
        acc)
    []

/-- The `graphql_fields` hook of `get_class_funcs`: append hook callables whose
names are not yet present. -/
def applyHook (members : List (String × Member)) (hook : List (String × Ann)) :
    List (String × Member) :=
  hook.foldl
    (fun acc na =>
      if acc.all (fun item => item.1 ≠ na.1) then acc ++ [(na.1, .call na.2)]
      else acc)
    members

/-- One step of the selection pass of `get_class_funcs`: a property
contributes its getter (and, in the mutable flavor, its setter), a callable
contributes itself, subject to `is_graphql` and `_matches_criterion`; a plain
attribute contributes nothing. -/
def processStep (schema : Option Nat) (mutable : Bool)
    (acc : List (String × Ann)) (km : String × Member) : List (String × Ann) :=
  match km.2 with
  | .prop fget fset =>
    let acc :=
      match fget with
      | some a =>
        if is_graphql a schema && _matches_criterion a schema mutable then
          acc ++ [(km.1, a)]
        else acc
      | none => acc
    if mutable then
      match fset with
      | some a =>
        if is_graphql a schema && _matches_criterion a schema mutable then
          acc ++ [(km.1, a)]
        else acc
      | none => acc
    else acc
  | .call a =>
    if is_graphql a schema && _matches_criterion a schema mutable then
      acc ++ [(km.1, a)]
    else acc
  | .plain _ => acc

/-- The selection pass of `get_class_funcs` over the collected members. -/
def processMembers (members : List (String × Member)) (schema : Option Nat)
    (mutable : Bool) : List (String × Ann) :=
  members.foldl (processStep schema mutable) []

/-- one step of the final dedup of `get_class_funcs` (`seen_keys`). -/
def dedupStep (acc : List (String × Ann)) (kf : String × Ann) :
    List (String × Ann) :=
  if acc.all (fun item => item.1 ≠ kf.1) then acc ++ [kf] else acc

/-- Final dedup of `get_class_funcs` (`seen_keys`): keep the first entry for
each key. -/
def dedupKeys (l : List (String × Ann)) : List (String × Ann) :=
  l.foldl dedupStep []

/-- Faithful embedding of `get_class_funcs(class_type, schema, mutable)` from
`mapper.py`, over a class given by its MRO member listing and its optional
`graphql_fields` hook.  It returns the selected members as (name, decoration)
pairs in order. -/
def get_class_funcs (mro : List (List (String × Member)))
    (hook : List (String × Ann)) (schema : Option Nat) (mutable : Bool) :
    List (String × Ann) :=
  dedupKeys (processMembers (applyHook (collectMro mro) hook) schema mutable)

/-! ## Python type descriptors -/

/-- The registered scalar classes appearing in
`GraphQLTypeMapper.scalar_map` (UUID, str, bytes, bool, int, dict, list, set,
float, datetime, date). -/
inductive ScalarClass where
  | uuid | strC | bytesC | boolC | intC | dictC | listC | setC
  | floatC | datetimeC | dateC
  deriving DecidableEq

/-- name of a scalar class (its `__name__`). -/
def scalarClassName : ScalarClass → String
  | .uuid => "UUID" | .strC => "str" | .bytesC => "bytes" | .boolC => "bool"
  | .intC => "int" | .dictC => "dict" | .listC => "list" | .setC => "set"
  | .floatC => "float" | .datetimeC => "datetime" | .dateC => "date"

/-- Python `issubclass` relation between the registered scalar classes
(`bool` is a subclass of `int`, `datetime` of `date`). -/
def scalarSubclass (a b : ScalarClass) : Bool :=
  a = b || (a = .boolC && b = .intC) || (a = .datetimeC && b = .dateC)

mutual

/-- Python-side type descriptors, the closed algebra of constructs handled by
`GraphQLTypeMapper.map` that the claims exercise: the none-type, registered
scalar classes, the `JsonType` alias, enum classes, the `UnionFlagType`
marker class, the `GraphQLContext` class, decorated/plain classes (with their
name, decoration, MRO member listing, `graphql_fields` hook and direct
subclasses), `Union[...]` types and `List[...]`/`Set[...]` containers. -/
inductive PyType where
  | noneT
  | scalarC (s : ScalarClass)
  | jsonT
  | enumC (name : String) (values : List (String × PyValue))
  | unionFlag
  | contextC
  | classC (name : String) (ann : Ann) (mro : List (List (String × Member)))
      (hook : List (String × Ann)) (subs : PyTypeList)
  | unionT (args : PyTypeList)
  | listT (elem : PyType)
  deriving DecidableEq

/-- Lists of type descriptors (mutual inductive so decidable equality can be
derived). -/
inductive PyTypeList where
  | nil
  | cons (hd : PyType) (tl : PyTypeList)
  deriving DecidableEq

end

/-- membership in a `PyTypeList` (`none_type in union_args`). -/
def ptlContains : PyTypeList → PyType → Bool
  | .nil, _ => false
  | .cons hd tl, x => hd = x || ptlContains tl x

/-- number of elements of a `PyTypeList` that are not the none-type. -/
def countNonNone : PyTypeList → Nat
  | .nil => 0
  | .cons hd tl => (if hd = PyType.noneT then 0 else 1) + countNonNone tl

/-- plain list view of a `PyTypeList`. -/
def PyTypeList.toList : PyTypeList → List PyType
  | .nil => []
  | .cons hd tl => hd :: tl.toList

/-- the `__name__` attribute of a type descriptor, when it has one. -/
def pyName : PyType → Option String
  | .noneT => some "NoneType"
  | .scalarC c => some (scalarClassName c)
  | .jsonT => none
  | .enumC n _ => some n
  | .unionFlag => some "UnionFlagType"
  | .contextC => some "GraphQLContext"
  | .classC n _ _ _ _ => some n
  | .unionT _ => none
  | .listT _ => none

/-- Embedding of `is_interface(type_, schema)` from `mapper.py`: a class
decorated with role `"interface"` and `defined_on == type_`. -/
def is_interface (t : PyType) (schema : Option Nat) : Bool :=
  match t with
  | .classC _ ann _ _ _ =>
    get_graphql_type ann schema = some "interface" && defined_on_self ann schema
  | _ => false

/-- Embedding of `is_abstract(type_, schema)` from `mapper.py`. -/
def is_abstract (t : PyType) (schema : Option Nat) : Bool :=
  match t with
  | .classC _ ann _ _ _ =>
    get_graphql_type ann schema = some "abstract" && defined_on_self ann schema
  | _ => false

/-! ## GraphQL type values and mapper state -/

/-- The GraphQL scalar singletons of the scalar mapping table. -/
inductive ScalarKind where
  | uuid | string | bytes | boolean | int | json | float | datetime | date
  deriving DecidableEq

/-- Embedding of `GraphQLTypeMapper.map_to_scalar`: ordered first-match walk
of `scalar_map` under `issubclass`; the `type(None)` row maps to "no scalar"
(but the none-type is already answered by `map` itself). -/
def map_to_scalar (c : ScalarClass) : Option ScalarKind :=
  if scalarSubclass c .uuid then some .uuid
  else if scalarSubclass c .strC then some .string
  else if scalarSubclass c .bytesC then some .bytes
  else if scalarSubclass c .boolC then some .boolean
  else if scalarSubclass c .intC then some .int
  else if scalarSubclass c .dictC || scalarSubclass c .listC || scalarSubclass c .setC then
    some .json
  else if scalarSubclass c .floatC then some .float
  else if scalarSubclass c .datetimeC then some .datetime
  else if scalarSubclass c .dateC then some .date
  else none

/-- GraphQL type values: scalar singletons, arena references to named types
(objects, interfaces, input objects, unions, enums — Python object identity is
arena-index identity), and the structural `GraphQLNonNull`/`GraphQLList`
wrappers. -/
inductive GVal where
  | scalar (k : ScalarKind)
  | named (r : Nat)
  | nonNull (v : GVal)
  | listOf (v : GVal)
  deriving DecidableEq

/-- The kind of an arena-allocated named GraphQL type. -/
inductive GKind where
  | object | interface | inputObject | union | enum
  deriving DecidableEq

/-- An arena-allocated named GraphQL type.  Field maps are thunked in the
source (`local_fields`), so an object/interface only stores the captured
class funcs, unevaluated; unions store their member list, enums their value
table. -/
structure GObj where
  kind : GKind
  name : String
  unionMembers : List GVal := []
  fieldFuncs : List (String × Ann) := []
  enumValues : List (String × PyValue) := []
  deriving DecidableEq

/-- Registry keys.  The source builds the string
`f"Registry({hash((str(type), as_input, as_mutable, suffix))})|..."`; the
`struct` constructor embeds that string (assuming the hash is collision-free),
and `name` embeds plain type-name strings — the two shapes are distinct
because GraphQL type names derive from Python class names, which cannot
contain `"Registry("`. -/
inductive RegKey where
  | struct (t : PyType) (asInput asMutable : Bool) (suffix : String)
  | name (s : String)
  deriving DecidableEq

/-- The mutable state of a `GraphQLTypeMapper`: the arena of allocated named
GraphQL types, the forward registry, the reverse registry and the `meta`
table. -/
structure MState where
  arena : List GObj := []
  registry : List (RegKey × Option GVal) := []
  revReg : List (GVal × PyType) := []
  meta : List ((String × String) × List (MetaKey × PyValue)) := []

/-- The immutable configuration of a `GraphQLTypeMapper` instance:
`as_input`, `as_mutable`, `suffix` and `schema`. -/
structure MapperCfg where
  asInput : Bool := false
  asMutable : Bool := false
  suffix : String := ""
  schema : Option Nat := none

/-- allocate a fresh named GraphQL type (a fresh Python object). -/
def allocObj (st : MState) (o : GObj) : GVal × MState :=
  (.named st.arena.length, { st with arena := st.arena ++ [o] })

/-- the arena entry of a reference. -/
def arenaGet (st : MState) (r : Nat) : Option GObj := st.arena.get? r

/-- Embedding of `graphql.is_input_type`: scalars, enums, input objects, and
wrappers thereof. -/
def isInputType (st : MState) : GVal → Bool
  | .scalar _ => true
  | .named r =>
    match arenaGet st r with
    | some o => o.kind = .inputObject || o.kind = .enum
    | none => false
  | .nonNull v => isInputType st v
  | .listOf v => isInputType st v

/-- Embedding of `isinstance(x, GraphQLObjectType)`. -/
def isObjectTypeV (st : MState) : GVal → Bool
  | .named r =>
    match arenaGet st r with
    | some o => o.kind = .object
    | none => false
  | _ => false

/-- Faithful embedding of `GraphQLTypeMapper.validate` (without `evaluate`):
reject `None` and, in input flavor, reject non-input types after stripping one
`GraphQLNonNull` layer.  The zero-field object check
(`not callable(current_type._fields) and len(current_type._fields) == 0`)
never fires in the embedding because object field maps are always stored as
unevaluated thunk payloads (callables). -/
def validate (st : MState) (asInput : Bool) : Option GVal → Bool
  | none => false
  | some v =>
    let core := match v with | .nonNull u => u | u => u
    if asInput && ¬ isInputType st core then false else true

/-- The registry key built by `map` for a descriptor under a mapper flavor. -/
def genericKey (cfg : MapperCfg) (t : PyType) : RegKey :=
  .struct t cfg.asInput cfg.asMutable cfg.suffix

/-- Modelled from the spec: `to_snake_case` from the missing
`graphql_api/utils.py` — wire camelCase back to source snake_case ("argument
name is case-converted (source snake_case → wire camelCase)"). -/
def to_snake_case (s : String) : String :=
  ⟨s.data.foldl
    (fun acc c =>
      if c.isUpper then acc ++ ['_', c.toLower] else acc ++ [c])
    []⟩

/-- character-list worker for `to_camel_case`: drop underscores and
capitalize the character following each one. -/
def camelChars : List Char → Bool → List Char
  | [], _ => []
  | '_' :: rest, _ => camelChars rest true
  | c :: rest, true => c.toUpper :: camelChars rest false
  | c :: rest, false => c :: camelChars rest false

/-- Modelled from the spec: `to_camel_case` from the missing
`graphql_api/utils.py` — source snake_case to wire camelCase. -/
def to_camel_case (s : String) : String :=
  ⟨camelChars s.data false⟩

/-- update of a metadata dictionary (`func_meta["graphql_type"] = ...`). -/
def setMetaKey (m : List (MetaKey × PyValue)) (k : MetaKey) (v : PyValue) :
    List (MetaKey × PyValue) :=
  (k, v) :: m

/-- Embedding of `GraphQLTypeMapper.map_to_enum`: allocate the enum type named
`f"{ClassName}Enum"` with the class's value table (the description logic over
docstrings is out of the claims' scope). -/
def map_to_enum (st : MState) (name : String) (values : List (String × PyValue)) :
    Option GVal × MState :=
  let (v, st') := allocObj st { kind := .enum, name := name ++ "Enum", enumValues := values }
  (some v, st')

/-- Embedding of `GraphQLTypeMapper.map_to_object`: compute the class funcs
eagerly, publish each func's non-empty metadata into `mapper.meta` under
`(type name, snake_cased key)` with `graphql_type` overwritten by the func's
role, and allocate the object with its thunked field payload. -/
def map_to_object (cfg : MapperCfg) (st : MState) (clsName : String)
    (mro : List (List (String × Member))) (hook : List (String × Ann)) :
    Option GVal × MState :=
  let name := clsName ++ cfg.suffix
  let funcs := get_class_funcs mro hook cfg.schema cfg.asMutable
  let meta' := funcs.foldl
    (fun m kf =>
      let fmeta := get_meta kf.2 cfg.schema
      if fmeta ≠ [] then
        let roleV := match get_graphql_type kf.2 cfg.schema with
          | some r => PyValue.strV r
          | none => PyValue.noneV
        ((name, to_snake_case kf.1),
          setMetaKey fmeta (.strK "graphql_type") roleV) :: m
      else m)
    st.meta
  let (v, st') := allocObj { st with meta := meta' }
    { kind := .object, name := name, fieldFuncs := funcs }
  (some v, st')

/-- Embedding of `GraphQLTypeMapper.map_to_input`: allocate the input object
named `f"{ClassName}{suffix}Input"` (its thunked field map, built from
`__init__`/`graphql_from_input` hints, is never consulted by the claims). -/
def map_to_input (cfg : MapperCfg) (st : MState) (clsName : String) :
    Option GVal × MState :=
  let (v, st') := allocObj st { kind := .inputObject, name := clsName ++ cfg.suffix ++ "Input" }
  (some v, st')

/-- the union type name: `f"{''.join(names)}{suffix}Union"` over the members
that have a `__name__` other than `"NoneType"`. -/
def unionName (args : PyTypeList) (suffix : String) : String :=
  String.join
    (args.toList.filterMap
      (fun a => match pyName a with
        | some n => if n ≠ "NoneType" then some n else none
        | none => none)) ++ suffix ++ "Union"

mutual

/-- Faithful embedding of `GraphQLTypeMapper.map`: answer the none-type with
`None`; otherwise consult the forward registry under the structural key and on
a miss run the dispatch (`_map`), cache `None` results, and register (forward
and reverse) freshly built values only when they validate. -/
def map (cfg : MapperCfg) (t : PyType) (st : MState) : Option GVal × MState :=
  if t = PyType.noneT then (none, st)
  else
    match st.registry.lookup (genericKey cfg t) with
    | some v => (v, st)
    | none =>
      let (v, st₁) := _map cfg t st
      match v with
      | none => (none, { st₁ with registry := (genericKey cfg t, none) :: st₁.registry })
      | some g =>
        if validate st₁ cfg.asInput (some g) then
          (some g, { st₁ with
            registry := (genericKey cfg t, some g) :: st₁.registry,
            revReg := (g, t) :: st₁.revReg })
        else (none, st₁)
termination_by (sizeOf t, 4)

/-- Faithful embedding of the inner dispatch `_map` of `GraphQLTypeMapper.map`
(first match wins): the `JsonType` alias, unions, `List`/`Set` containers,
then classes — scalar table, enum classes, interfaces, and input objects or
plain objects depending on the flavor.  The escape hatches outside the
algebra (`GraphQLTypeWrapper`, dataclasses, `Literal`, raw `GraphQLType`
classes/instances) have no constructor here. -/
def _map (cfg : MapperCfg) (t : PyType) (st : MState) : Option GVal × MState :=
  match t with
  | .noneT => (none, st)
  | .jsonT => (some (.scalar .json), st)
  | .unionT args => map_to_union cfg args st
  | .listT elem => map_to_list cfg elem st
  | .scalarC c => ((map_to_scalar c).map GVal.scalar, st)
  | .enumC name values => map_to_enum st name values
  | .unionFlag =>
    if cfg.asInput then map_to_input cfg st "UnionFlagType"
    else map_to_object cfg st "UnionFlagType" [] []
  | .contextC =>
    if cfg.asInput then map_to_input cfg st "GraphQLContext"
    else map_to_object cfg st "GraphQLContext" [] []
  | .classC name _ mro hook subs =>
    if is_interface t cfg.schema then
      map_to_interface cfg name mro hook subs st
    else if cfg.asInput then map_to_input cfg st name
    else map_to_object cfg st name mro hook
termination_by (sizeOf t, 3)

/-- Faithful embedding of `GraphQLTypeMapper.map_to_union`: drop the
`UnionFlagType` marker, map every non-none member; a single-member union
containing the none-type returns that member's mapping directly; otherwise
build a `GraphQLUnionType` over the members that mapped to object types,
returning `None` when there are none (the runtime `resolve_type` closure is
execution behavior, out of the claims' scope). -/
def map_to_union (cfg : MapperCfg) (args : PyTypeList) (st : MState) :
    Option GVal × MState :=
  let (pairs, st₁) := mapEach cfg (fun a => a = PyType.unionFlag || a = PyType.noneT) args st
  if pairs.length = 1 && ptlContains args PyType.noneT then
    (match pairs with
      | [p] => p.2
      | _ => none, st₁)
  else
    let valids := pairs.filterMap
      (fun p => match p.2 with
        | some g => if isObjectTypeV st₁ g then some g else none
        | none => none)
    if valids = [] then (none, st₁)
    else
      let (v, st₂) := allocObj st₁
        { kind := .union, name := unionName args cfg.suffix, unionMembers := valids }
      (some v, st₂)
termination_by (sizeOf args, 2)

/-- Faithful embedding of `GraphQLTypeMapper.map_to_list`: unwrap an
`Optional[...]` element type (single-branch unions containing the none-type),
map the element, wrap it `GraphQLNonNull` unless the element was nullable, and
return the `GraphQLList`. -/
def map_to_list (cfg : MapperCfg) (elem : PyType) (st : MState) :
    Option GVal × MState :=
  let (sub, nullable, st₁) :=
    match elem with
    | .unionT eargs =>
      if ptlContains eargs PyType.noneT then
        if countNonNone eargs = 1 then
          let (s, st') := mapFirstNonNone cfg eargs st
          (s, true, st')
        else
          let (s, st') := map cfg (.unionT eargs) st
          (s, true, st')
      else
        let (s, st') := map cfg (.unionT eargs) st
        (s, false, st')
    | e =>
      let (s, st') := map cfg e st
      (s, false, st')
  match sub with
  | none => (none, st₁)
  | some s => (some (.listOf (if nullable then s else .nonNull s)), st₁)
termination_by (1 + sizeOf elem, 0)

/-- map the first non-none element of a union's argument list (the
`actual_args[0]` of `map_to_list` when the optional element has exactly one
concrete branch). -/
def mapFirstNonNone (cfg : MapperCfg) (l : PyTypeList) (st : MState) :
    Option GVal × MState :=
  match l with
  | .nil => (none, st)
  | .cons hd tl =>
    if hd = PyType.noneT then mapFirstNonNone cfg tl st
    else map cfg hd st
termination_by (sizeOf l, 1)

/-- Faithful embedding of `GraphQLTypeMapper.map_to_interface`: eagerly map
every non-abstract direct subclass, then allocate the interface named
`f"{name}{suffix}Interface"` with its thunked field payload (the
`resolve_type` closure is execution behavior, out of the claims' scope). -/
def map_to_interface (cfg : MapperCfg) (clsName : String)
    (mro : List (List (String × Member))) (hook : List (String × Ann))
    (subs : PyTypeList) (st : MState) : Option GVal × MState :=
  let (_, st₁) := mapEach cfg (fun sub => is_abstract sub cfg.schema) subs st
  let funcs := get_class_funcs mro hook cfg.schema cfg.asMutable
  let (v, st₂) := allocObj st₁
    { kind := .interface, name := clsName ++ cfg.suffix ++ "Interface", fieldFuncs := funcs }
  (some v, st₂)
termination_by (sizeOf subs, 2)

/-- map each element of a type list not skipped by `skip`, threading the
mapper state, and return the (descriptor, result) pairs in order.  This is the
shared shape of the member loops of `map_to_union` (skip: the flag marker and
the none-type) and `map_to_interface` (skip: abstract subclasses). -/
def mapEach (cfg : MapperCfg) (skip : PyType → Bool) (l : PyTypeList)
    (st : MState) : List (PyType × Option GVal) × MState :=
  match l with
  | .nil => ([], st)
  | .cons hd tl =>
    if skip hd then mapEach cfg skip tl st
    else
      let (v, st₁) := map cfg hd st
      let (ps, st₂) := mapEach cfg skip tl st₁
      ((hd, v) :: ps, st₂)
termination_by (sizeOf l, 0)

end

/-- Faithful embedding of `GraphQLTypeMapper.rmap`: strip every `of_type`
wrapper layer, then consult the reverse registry (in the embedding every
wrapper's `of_type` is a GraphQL type, so the `isinstance` guard never
breaks the loop early). -/
def rmap (st : MState) (g : GVal) : Option PyType :=
  match g with
  | .nonNull v => rmap st v
  | .listOf v => rmap st v
  | v => st.revReg.lookup v

/-! ## Field building (`map_to_field`) -/

/-- A Python callable as consumed by `map_to_field`: its `__name__`, its
decoration, its reflected return annotation and parameter list
(name, hint, has-default), and the source-level single-type-union marker. -/
structure PyFunc where
  name : String := ""
  ann : Ann := {}
  ret : Option PyType := none
  params : List (String × PyType × Bool) := []
  singleUnionFlag : Bool := false

/-- The construction-time errors of `map_to_field`:
`GraphQLTypeMapInvalid` and `GraphQLTypeMapError`. -/
inductive FieldErr where
  | typeMapInvalid (msg : String)
  | typeMapError (msg : String)
  deriving DecidableEq

/-- A built `GraphQLField`: its (possibly non-null-wrapped) return type, its
argument map (wire-cased name to argument type), and whether it was built as
a `GraphQLMutableField` (the resolver closure and description are execution
behavior, out of the claims' scope). -/
structure GField where
  ftype : GVal
  args : List (String × GVal) := []
  isMutable : Bool := false
  deriving DecidableEq

/-- Modelled from the spec: `has_single_type_union_return` from the missing
`graphql_api/utils.py` — detects "a return type that is itself a union of
exactly one concrete branch plus none ... flagged at the source level as a
pseudo-union", so it requires a present union-with-none return annotation
with exactly one concrete branch together with the source-level flag. -/
def has_single_type_union_return (f : PyFunc) : Bool :=
  f.singleUnionFlag &&
    match f.ret with
    | some (.unionT args) => ptlContains args PyType.noneT && countNonNone args = 1
    | _ => false

/-- append two type lists (used to model the flattening Python performs when
forming `Union[return_type, UnionFlagType]`). -/
def ptlAppend : PyTypeList → PyTypeList → PyTypeList
  | .nil, l => l
  | .cons hd tl, l => .cons hd (ptlAppend tl l)

/-- the pseudo-union `Union[return_type, UnionFlagType]` (Python flattens the
nested union). -/
def addUnionFlag : PyType → PyType
  | .unionT args => .unionT (ptlAppend args (.cons .unionFlag .nil))
  | t => .unionT (.cons t (.cons .unionFlag .nil))

/-- whether a GraphQL value is a `GraphQLNonNull` wrapper. -/
def isNonNullV : GVal → Bool
  | .nonNull _ => true
  | _ => false

/-- the `of_type` of a wrapper (identity elsewhere; only consulted on
wrappers). -/
def ofTypeV : GVal → GVal
  | .nonNull v => v
  | .listOf v => v
  | v => v

/-- The argument loop of `map_to_field`: skip the conventional `context`
parameter, map each hint through the input-flavored mapper (which shares the
registry), wrap non-null unless the parameter has a default, reject non-input
argument types, and record the argument under the camelCased name. -/
def buildArgs (inputCfg : MapperCfg) (fname fkey : String)
    (params : List (String × PyType × Bool)) (st : MState) :
    Except FieldErr (List (String × GVal) × MState) :=
  match params with
  | [] => .ok ([], st)
  | (pname, hint, hasDefault) :: rest =>
    if pname = "context" && hint = PyType.contextC then
      buildArgs inputCfg fname fkey rest st
    else
      match map inputCfg hint st with
      | (none, _) =>
        .error (.typeMapError
          ("Argument '" ++ pname ++ "' in '" ++ fname ++ "." ++ fkey ++ "' mapped to None."))
      | (some a, st₁) =>
        let argType := if ¬ hasDefault then GVal.nonNull a else a
        if (¬ isInputType st₁ argType && ¬ isNonNullV argType) ||
            (isNonNullV argType && ¬ isInputType st₁ (ofTypeV argType)) then
          .error (.typeMapError
            ("Argument '" ++ pname ++ "' in '" ++ fname ++ "." ++ fkey ++
              "' mapped to non-input type."))
        else
          match buildArgs inputCfg fname fkey rest st₁ with
          | .ok (args, st₂) => .ok ((to_camel_case pname, argType) :: args, st₂)
          | .error e => .error e

/-- Faithful embedding of `GraphQLTypeMapper.map_to_field`: pop the return
annotation, wrap it into the pseudo-union when the single-type-union marker is
set, fail with `GraphQLTypeMapInvalid` when there is no return annotation, map
the return type, derive nullability from "union including the none-type",
enforce the mapping/validation checks, wrap `GraphQLNonNull` unless nullable,
build the arguments through an input-flavored mapper sharing the registry, and
tag the field `GraphQLMutableField` when the callable's role is
`"mutable_field"` (the resolver closure is execution behavior, out of the
claims' scope). -/
def map_to_field (cfg : MapperCfg) (f : PyFunc) (name key : String)
    (st : MState) : Except FieldErr (Option GField × MState) :=
  let ret0 := f.ret
  let ret1 :=
    if has_single_type_union_return f then (ret0.map addUnionFlag)
    else ret0
  match ret1 with
  | none =>
    .error (.typeMapInvalid
      ("Field '" ++ name ++ "." ++ key ++ "' with function (" ++ f.name ++
        ") did not specify a valid return type."))
  | some rt =>
    let (rg, st₁) := map cfg rt st
    let nullable :=
      match rt with
      | .unionT args => ptlContains args PyType.noneT
      | _ => false
    match rg with
    | none =>
      if nullable = false then
        .error (.typeMapError
          ("Field '" ++ name ++ "." ++ key ++ "' with function '" ++ f.name ++
            "' return type mapped to None, but was not declared Optional."))
      else .ok (none, st₁)
    | some g =>
      if ¬ validate st₁ cfg.asInput (some g) then
        .error (.typeMapError
          ("Field '" ++ name ++ "." ++ key ++ "' with function '" ++ f.name ++
            "' return type could not be mapped to a valid GraphQL type."))
      else
        let wrapped := if nullable = false then GVal.nonNull g else g
        let inputCfg : MapperCfg :=
          { asMutable := cfg.asMutable, asInput := true,
            suffix := cfg.suffix, schema := cfg.schema }
        match buildArgs inputCfg name key f.params st₁ with
        | .error e => .error e
        | .ok (args, st₂) =>
          let isMut := get_graphql_type f.ann cfg.schema = some "mutable_field"
          .ok (some { ftype := wrapped, args := args, isMutable := isMut }, st₂)

/-! ## Enum serialization (`map_to_enum.serialize`) -/

/-- The possible results of the enum `serialize` closure: a GraphQL-facing
value name, Python `None`, or the `Undefined` sentinel. -/
inductive SerializeResult where
  | name (s : String)
  | nullRes
  | undefinedRes
  deriving DecidableEq

/-- the `if isinstance(value, enum.Enum): value = value.value` unwrap of the
enum `serialize` closure. -/
def enumUnderlyingValue : PyValue → PyValue
  | .enumV _ u => u
  | u => u

/-- Faithful embedding of the `serialize` closure installed by
`GraphQLTypeMapper.map_to_enum`: truthy hashable values are unwrapped from
enum members to their underlying value and looked up in the reverse
`_value_lookup` table (value to GraphQL-facing name, modelled as a
parameter since `GraphQLMappedEnumType` lives outside `src/`); a hit returns
the name (subject to Python string truthiness), a miss returns the
`Undefined` sentinel, and falsy or unhashable values return `None`. -/
def enum_serialize (lookup : List (PyValue × String)) (value : PyValue) :
    SerializeResult :=
  if pyTruthy value && pyHashable value then
    match lookup.lookup (enumUnderlyingValue value) with
    | some n => if n ≠ "" then .name n else .undefinedRes
    | none => .undefinedRes
  else .nullRes

/-! ## String helpers used by the reducer -/

/-- remove the first occurrence of `pat` from `s` (character-list version of
Python's `str.replace(pat, "", 1)`). -/
def removeFirstSub (s pat : List Char) : List Char :=
  match s with
  | [] => []
  | c :: rest =>
    if pat ≠ [] && pat.isPrefixOf (c :: rest) then (c :: rest).drop pat.length
    else c :: removeFirstSub rest pat

/-- Python `s.replace(pat, "", 1)`. -/
def replaceFirstStr (s pat : String) : String :=
  if pat = "" then s else ⟨removeFirstSub s.data pat.data⟩

/-- Python `sub in s` substring membership. -/
def strContains (s sub : String) : Bool :=
  decide (sub.data <:+: s.data)

/-! ## The reducer's view of a built GraphQL graph

`GraphQLSchemaReducer` operates on already-built graphql-core type objects
whose field maps are thunks that either return a field dict or raise
(`AssertionError` for zero-field objects, `GraphQLTypeMapError` for deferred
mapping errors).  The reducer model therefore takes the materialized outcome
of each type's `fields` access as input (`RTypeInfo.fieldsRes`), with named
types arena-indexed as in the mapper model. -/

/-- The exceptions relevant to the reducer: the two caught by its
`try/except` clauses plus the `KeyError` a `del` on a missing key would
raise. -/
inductive RErr where
  | assertionError | typeMapError | keyError
  deriving DecidableEq

/-- A GraphQL type as referenced by a field: a named type (arena index), a
scalar singleton, or wrapper layers. -/
inductive RTy where
  | named (r : Nat)
  | scalarT (k : ScalarKind)
  | nonNull (t : RTy)
  | listOf (t : RTy)
  deriving DecidableEq

/-- A built GraphQL field as the reducer sees it: its type and whether it is a
`GraphQLMutableField`. -/
structure RField where
  ftype : RTy
  isMutable : Bool := false
  deriving DecidableEq

/-- kind of a named type in the reducer model. -/
inductive RKind where
  | object | interface | enum | union | inputObject
  deriving DecidableEq

/-- decidable equality of `Except` outcomes. -/
instance exceptDecEq {ε α : Type} [DecidableEq ε] [DecidableEq α] :
    DecidableEq (Except ε α)
  | .ok a, .ok b =>
    if h : a = b then .isTrue (by rw [h]) else .isFalse (by simp [h])
  | .ok _, .error _ => .isFalse (by simp)
  | .error _, .ok _ => .isFalse (by simp)
  | .error a, .error b =>
    if h : a = b then .isTrue (by rw [h]) else .isFalse (by simp [h])

/-- A named GraphQL type in the reducer model: its name, kind, the outcome of
accessing its (thunked) field map, and its interface references. -/
structure RTypeInfo where
  name : String
  kind : RKind
  fieldsRes : Except RErr (List (String × RField)) := .ok []
  interfaces : List Nat := []
  deriving DecidableEq

/-- the arena of named types the reducer works over. -/
abbrev RGraph := List RTypeInfo

/-- the named type behind an arena reference. -/
def tinfo (g : RGraph) (r : Nat) : Option RTypeInfo := g.get? r

/-- strip all `GraphQLNonNull`/`GraphQLList` wrapper layers
(`while isinstance(type_, (GraphQLNonNull, GraphQLList)): type_ = type_.of_type`). -/
def unwrapR : RTy → RTy
  | .nonNull t => unwrapR t
  | .listOf t => unwrapR t
  | t => t

/-- a wrapper layer class (`field_type.__class__` collected into `wraps`). -/
inductive WrapKind where
  | nonNullW | listW
  deriving DecidableEq

/-- the wrapper layers of a type, outermost first (collection order of the
`wraps` list in `reduce_mutation`). -/
def wrapsOf : RTy → List WrapKind
  | .nonNull t => .nonNullW :: wrapsOf t
  | .listOf t => .listW :: wrapsOf t
  | _ => []

/-- apply a wrapper class to a type (`wrap(query_type)`). -/
def applyWrap (w : WrapKind) (t : RTy) : RTy :=
  match w with
  | .nonNullW => .nonNull t
  | .listW => .listOf t

/-- the GraphQL-facing name of a scalar singleton. -/
def scalarKindName : ScalarKind → String
  | .uuid => "UUID" | .string => "String" | .bytes => "Bytes"
  | .boolean => "Boolean" | .int => "Int" | .json => "JSON"
  | .float => "Float" | .datetime => "DateTime" | .date => "Date"

/-- Python `str(type_)` on a GraphQL type: the type name for named types and
scalars, with the usual wrapper renderings. -/
def rtyStr (g : RGraph) : RTy → String
  | .named r => ((tinfo g r).map (·.name)).getD ""
  | .scalarT k => scalarKindName k
  | .nonNull t => rtyStr g t ++ "!"
  | .listOf t => "[" ++ rtyStr g t ++ "]"

/-- A filter policy (`GraphQLFilter.filter_field(name, meta) -> bool`, true
meaning "remove this field"). -/
def RFilter := String → List (MetaKey × PyValue) → Bool

/-- does an embedded Python list contain a string that is in `tags`? -/
def pvlHasTagIn : PyValueList → List String → Bool
  | .nil, _ => false
  | .cons (.strV s) tl, tags => s ∈ tags || pvlHasTagIn tl tags
  | .cons _ tl, tags => pvlHasTagIn tl tags

/-- Faithful embedding of `TagFilter.filter_field`: remove a field when any of
its `"tags"` metadata entries is among the filter's tags. -/
def tag_filter (tags : List String) : RFilter := fun _name meta =>
  match meta.lookup (MetaKey.strK "tags") with
  | some (.listV l) => pvlHasTagIn l tags
  | _ => false

/-- the meta table handed from the mapper to the reducer. -/
abbrev RMeta := List ((String × String) × List (MetaKey × PyValue))

/-- The walk state of `GraphQLSchemaReducer.invalid`: the shared
`checked_types`, `invalid_types` and `invalid_fields` sets. -/
structure WalkSets where
  checked : List Nat := []
  invalidTypes : List Nat := []
  invalidFields : List (Nat × String) := []

/-- set insertion (`set.add`). -/
def insertNat (x : Nat) (l : List Nat) : List Nat :=
  if x ∈ l then l else x :: l

/-- set insertion for field marks. -/
def insertPair (x : Nat × String) (l : List (Nat × String)) : List (Nat × String) :=
  if x ∈ l then l else x :: l

/-- the `assert type_.fields` of the walk: the fields dict when nonempty,
otherwise the raised exception (`AssertionError` for an empty dict, or the
error raised by the thunk itself). -/
def assertFields (g : RGraph) (r : Nat) : Except RErr (List (String × RField)) :=
  match tinfo g r with
  | some info =>
    match info.fieldsRes with
    | .ok [] => .error .assertionError
    | res => res
  | none => .error .assertionError

/-- the `interface_fields` collection of the walk: keys of every interface
whose field map evaluates (a raising interface contributes nothing, the
exception having been caught). -/
def interfaceFieldKeys (g : RGraph) (ifaces : List Nat) : List String :=
  ifaces.foldl
    (fun acc i =>
      match tinfo g i with
      | some ii =>
        match ii.fieldsRes with
        | .ok l => acc ++ l.map Prod.fst
        | .error _ => acc
      | none => acc)
    []

/-- record the interfaces whose field map raises as invalid (the
`except` branch of the interface loop of `invalid`). -/
def markBrokenInterfaces (g : RGraph) (ifaces : List Nat) (s : WalkSets) : WalkSets :=
  ifaces.foldl
    (fun s i =>
      match tinfo g i with
      | some ii =>
        match ii.fieldsRes with
        | .error _ => { s with invalidTypes := insertNat i s.invalidTypes }
        | .ok _ => s
      | none => s)
    s

mutual

/-- Faithful embedding of `GraphQLSchemaReducer.invalid` (fuel-indexed; the
source recursion is bounded by `checked_types`, so any fuel larger than the
number of types reproduces it exactly, and the theorems below hold for every
fuel): skip already-checked types, record a type whose field access raises as
invalid, record broken interfaces, and walk the fields. -/
def invalid (g : RGraph) (filters : List RFilter) (meta : RMeta) :
    Nat → Nat → WalkSets → WalkSets
  | 0, _, s => s
  | fuel + 1, root, s =>
    if root ∈ s.checked then s
    else
      let s := { s with checked := root :: s.checked }
      match tinfo g root with
      | none => s
      | some info =>
        match info.fieldsRes with
        | .error _ => { s with invalidTypes := insertNat root s.invalidTypes }
        | .ok fields =>
          let s := markBrokenInterfaces g info.interfaces s
          invalidFieldsLoop g filters meta fuel root info fields s
termination_by fuel => (fuel, 0)

/-- The field loop of `invalid` (the outer fuel having been decremented by the
enclosing call): skip interface-inherited keys, apply the filter chain via the
meta table keyed on (owning type name, snake_cased key), and for
object/interface return types either recurse (when `assert type_.fields`
passes) or record the returned type and the referring field as invalid. -/
def invalidFieldsLoop (g : RGraph) (filters : List RFilter) (meta : RMeta) :
    Nat → Nat → RTypeInfo → List (String × RField) → WalkSets → WalkSets
  | _, _, _, [], s => s
  | fuel, root, info, kf :: rest, s =>
    let s :=
      if kf.1 ∈ interfaceFieldKeys g info.interfaces then s
      else
        let core := unwrapR kf.2.ftype
        let fname := to_snake_case kf.1
        let fmeta := (meta.lookup (info.name, fname)).getD []
        let s :=
          if filters.any (fun fl => fl fname fmeta) then
            { s with invalidFields := insertPair (root, kf.1) s.invalidFields }
          else s
        match core with
        | .named r' =>
          match tinfo g r' with
          | some ti =>
            if ti.kind = .interface ∨ ti.kind = .object then
              match assertFields g r' with
              | .ok _ => invalid g filters meta fuel r' s
              | .error _ =>
                { s with
                  invalidTypes := insertNat r' s.invalidTypes,
                  invalidFields := insertPair (root, kf.1) s.invalidFields }
            else s
          | none => s
        | _ => s
    invalidFieldsLoop g filters meta fuel root info rest s
termination_by fuel _ _ flds => (fuel, flds.length + 1)

end

/-- update one arena entry of a reducer graph. -/
def updateAt (g : RGraph) (r : Nat) (f : RTypeInfo → RTypeInfo) : RGraph :=
  g.mapIdx (fun i info => if i = r then f info else info)

/-- One deletion of `reduce_query`'s cleanup (`del type_.fields[key]`):
re-accessing a broken field map re-raises its error, and deleting a missing
key raises `KeyError`; otherwise the key is removed from the owning type. -/
def delField (g : RGraph) (p : Nat × String) : Except RErr RGraph :=
  match tinfo g p.1 with
  | none => .ok g
  | some info =>
    match info.fieldsRes with
    | .error e => .error e
    | .ok flds =>
      if (flds.lookup p.2).isSome then
        .ok (updateAt g p.1
          (fun i => { i with fieldsRes := .ok (flds.filter (fun kf => kf.1 ≠ p.2)) }))
      else .error .keyError

/-- Faithful embedding of `GraphQLSchemaReducer.reduce_query` (the initial
`mapper.map(root)` being a registry hit for the already-built query object,
embedded as the `root` reference): run the `invalid` walk from the root, then
delete every invalid field from its owning type and purge every registry entry
whose value is an invalid type. -/
def reduce_query (g : RGraph) (registry : List (RegKey × Option RTy))
    (root : Nat) (filters : List RFilter) (meta : RMeta) (fuel : Nat) :
    Except RErr (RGraph × List (RegKey × Option RTy)) :=
  let s := invalid g filters meta fuel root {}
  match s.invalidFields.foldlM delField g with
  | .error e => .error e
  | .ok g' =>
    .ok (g',
      registry.filter
        (fun p =>
          match p.2 with
          | some (.named r) => r ∉ s.invalidTypes
          | _ => true))

/-! ## Mutation reduction -/

/-- Modelled from the spec: `has_mutable` from the missing
`graphql_api/utils.py` — a type is mutable-bearing when it "has at least one
field literally tagged as mutable (or, for interfaces, mutable fields are only
considered if interfaces are flagged as mutable-bearing, controlled by a flag
interfaces_default_mutable=false)", after stripping wrapper layers ("a
(possibly wrapped) type that is itself mutable-bearing").  The flag's default
for the suffix-check call sites is taken as `true` (the reducer passes `false`
explicitly when collecting the mutable type set). -/
def has_mutable (g : RGraph) (t : RTy) (interfacesDefaultMutable : Bool := true) :
    Bool :=
  match unwrapR t with
  | .named r =>
    match tinfo g r with
    | some info =>
      (info.kind = .object || (info.kind = .interface && interfacesDefaultMutable)) &&
        (match info.fieldsRes with
          | .ok l => l.any (·.2.isMutable)
          | .error _ => false)
    | none => false
  | _ => false

mutual

/-- Modelled from the spec: the type walk of `iterate_fields` from the missing
`graphql_api/utils.py` — visit every object/interface type reachable from the
root through (unwrapped) field types, each once, in discovery order; a type
whose field map raises contributes no fields. -/
def iterTypes (g : RGraph) : Nat → Nat → List Nat → List Nat
  | 0, _, visited => visited
  | fuel + 1, t, visited =>
    if t ∈ visited then visited
    else
      let visited := visited ++ [t]
      match tinfo g t with
      | none => visited
      | some info =>
        match info.fieldsRes with
        | .error _ => visited
        | .ok flds => iterTypesLoop g fuel flds visited
termination_by fuel => (fuel, 0)

/-- the field loop of the `iterate_fields` type walk. -/
def iterTypesLoop (g : RGraph) :
    Nat → List (String × RField) → List Nat → List Nat
  | _, [], visited => visited
  | fuel, kf :: rest, visited =>
    let visited :=
      match unwrapR kf.2.ftype with
      | .named r' =>
        match tinfo g r' with
        | some ti =>
          if ti.kind = .object ∨ ti.kind = .interface then
            iterTypes g fuel r' visited
          else visited
        | none => visited
      | _ => visited
    iterTypesLoop g fuel rest visited
termination_by fuel flds => (fuel, flds.length + 1)

end

/-- Modelled from the spec: `iterate_fields` from the missing
`graphql_api/utils.py` — yield `(type, key, field)` for every field of every
type reachable from the root (this forces the thunked field maps, the
"first force-evaluate every field's thunked type" step of mutation
reduction). -/
def iterate_fields (g : RGraph) (fuel : Nat) (root : Nat) :
    List (Nat × String × RField) :=
  (iterTypes g fuel root []).foldl
    (fun acc t =>
      match tinfo g t with
      | some info =>
        match info.fieldsRes with
        | .ok flds => acc ++ flds.map (fun kf => (t, kf.1, kf.2))
        | .error _ => acc
      | none => acc)
    []

/-- overwrite the type of one field of one named type
(`field.type = query_type`). -/
def setFieldType (g : RGraph) (r : Nat) (key : String) (ty : RTy) : RGraph :=
  updateAt g r
    (fun i =>
      match i.fieldsRes with
      | .ok flds =>
        { i with
          fieldsRes := .ok (flds.map
            (fun kf => if kf.1 = key then (kf.1, { kf.2 with ftype := ty }) else kf)) }
      | .error _ => i)

/-- One step of the rewrite loop of `reduce_mutation`, for the visited field
`(tref, key)`: read the field's current type, collect its wrapper layers,
consult the meta table for the field's source-level role and the
`resolve_to_mutable` flag, skip fields flagged mutable and plain fields whose
current type is suffix-named or in the mutable type set, and otherwise look
the suffix-stripped type name up in the registry, rewrapping and assigning on
a hit (`if query_type:`). -/
def rewriteFieldStep (registry : List (RegKey × Option RTy)) (meta : RMeta)
    (suffix : String) (mutTypes : List RTy) (g : RGraph) (tref : Nat)
    (key : String) : RGraph :=
  match tinfo g tref with
  | none => g
  | some info =>
    match info.fieldsRes with
    | .error _ => g
    | .ok flds =>
      match flds.lookup key with
      | none => g
      | some fld =>
        let wraps := wrapsOf fld.ftype
        let core := unwrapR fld.ftype
        let fmeta := (meta.lookup (info.name, to_snake_case key)).getD []
        let roleV :=
          match fmeta.lookup (MetaKey.strK "graphql_type") with
          | some v => v
          | none => PyValue.strV "field"
        let flagged :=
          match fmeta.lookup MetaKey.resolveToMutable with
          | some v => pyTruthy v
          | none => false
        if flagged then g
        else if roleV = PyValue.strV "field" &&
            (strContains (rtyStr g core) suffix || core ∈ mutTypes) then g
        else
          let qname := replaceFirstStr (rtyStr g core) suffix
          match registry.lookup (RegKey.name qname) with
          | some (some qt) =>
            setFieldType g tref key (wraps.foldl (fun acc w => applyWrap w acc) qt)
          | _ => g

/-- Faithful embedding of `GraphQLSchemaReducer.reduce_mutation` (over the
spec-modelled `iterate_fields`/`has_mutable` helpers): force the field thunks,
collect the mutable-bearing registry types (the Python root *class* seeded
into that set can never compare equal to a GraphQL type object, so it never
matches a field type and is omitted), run the rewrite loop over every visited
field, and finally strip from the root mutation object every field that is
neither interface-inherited, nor mutable-tagged, nor of a (possibly wrapped)
mutable-bearing type. -/
def reduce_mutation (g : RGraph) (registry : List (RegKey × Option RTy))
    (meta : RMeta) (suffix : String) (root : Nat) (fuel : Nat) : RGraph :=
  let visits := iterate_fields g fuel root
  let mutTypes : List RTy :=
    (registry.filterMap (·.2)).filter (fun ty => has_mutable g ty false)
  let g₁ := visits.foldl
    (fun g v => rewriteFieldStep registry meta suffix mutTypes g v.1 v.2.1) g
  match tinfo g₁ root with
  | none => g₁
  | some info =>
    match info.fieldsRes with
    | .error _ => g₁
    | .ok flds =>
      let ifaceKeys := interfaceFieldKeys g₁ info.interfaces
      let keep := flds.filter
        (fun kf =>
          kf.1 ∈ ifaceKeys || kf.2.isMutable || has_mutable g₁ kf.2.ftype)
      updateAt g₁ root (fun i => { i with fieldsRes := .ok keep })

/-! ## The query slice of `build_schema` -/

/-- allocate a fresh named type in a reducer graph. -/
def allocRType (g : RGraph) (info : RTypeInfo) : RGraph × Nat :=
  (g ++ [info], g.length)

/-- the `query_has_fields = len(filtered_query.fields) > 0` test of
`build_schema` (an exception while counting counting it as "no fields"). -/
def queryHasFields (g : RGraph) (root : Nat) : Bool :=
  match tinfo g root with
  | some info =>
    match info.fieldsRes with
    | .ok l => decide (l.length > 0)
    | .error _ => false
  | none => false

/-- the placeholder query object `build_schema` synthesizes when filtering
removed every root field: it keeps the filtered root's name and carries the
single diagnostic `"_schema"` string field. -/
def placeholderInfo (g₁ : RGraph) (root : Nat) : RTypeInfo :=
  { name := ((tinfo g₁ root).map (fun i => i.name)).getD "",
    kind := .object,
    fieldsRes := .ok [("_schema", { ftype := RTy.scalarT .string })] }

/-- Faithful embedding of the query-building slice of
`GraphQLAPI.build_schema` (api.py): reduce the query, test
`len(filtered_query.fields) > 0` (an exception counting as "no fields"), and
when filters are configured and the root lost every field, synthesize the
placeholder query object that keeps the original root name and carries the
single diagnostic `_schema` string field; otherwise continue with the
filtered query. -/
def build_schema_query (g : RGraph) (registry : List (RegKey × Option RTy))
    (root : Nat) (filters : List RFilter) (meta : RMeta) (fuel : Nat) :
    Except RErr (RGraph × Nat) :=
  match reduce_query g registry root filters meta fuel with
  | .error e => .error e
  | .ok (g₁, _) =>
    if !filters.isEmpty && !queryHasFields g₁ root then
      let (g₂, r) := allocRType g₁ (placeholderInfo g₁ root)
      .ok (g₂, r)
    else .ok (g₁, root)

/-- read one field's current GraphQL return type (`type_.fields[key].type`). -/
def fieldTypeAt (g : RGraph) (r : Nat) (key : String) : Option RTy :=
  match tinfo g r with
  | some info =>
    match info.fieldsRes with
    | .ok flds => (flds.lookup key).map (fun f => f.ftype)
    | .error _ => none
  | none => none

/-- every recorded invalid-field mark denotes an existing key of an existing
type whose field map evaluates (what the walk guarantees, and what the
deletion loop needs in order never to raise). -/
def MarksOk (g : RGraph) (l : List (Nat × String)) : Prop :=
  ∀ p ∈ l, ∃ info flds, tinfo g p.1 = some info ∧
    info.fieldsRes = Except.ok flds ∧ (flds.lookup p.2).isSome = true

/-! ## Well-formedness of mapper states

`GraphQLTypeMapper.map` only ever stores values in the forward registry after
they pass `validate`, and neither `map` nor `_map` ever returns a type whose
top layer is a `GraphQLNonNull` wrapper (non-null wrapping happens in the
field builder, around `map`'s results).  `GoodSt` captures this invariant of
reachable mapper states; the theorems below show `map` preserves it. -/

/-- A well-formed mapper state: every cached non-`None` registry value
validates against its key's input flavor and is not top-level non-null
wrapped. -/
def GoodSt (st : MState) : Prop :=
  ∀ t inp mtb suf g,
    st.registry.lookup (RegKey.struct t inp mtb suf) = some (some g) →
      validate st inp (some g) = true ∧ isNonNullV g = false

/-- whether a callable's declared return annotation is a union including the
none-type (`map_to_field`'s nullability criterion, on the declared return
type). -/
def retDeclaredNullable (f : PyFunc) : Bool :=
  match f.ret with
  | some (.unionT args) => ptlContains args PyType.noneT
  | _ => false

/-- the new state's arena extends the old one (allocation is append-only). -/
def ArenaExt (stOld stNew : MState) : Prop :=
  ∃ ext, stNew.arena = stOld.arena ++ ext

/-- the new registry is the old one with fresh entries in front, every fresh
key being a structural key of the mapper's own flavor whose descriptor
satisfies the size bound `P` (used to show a call can only cache descriptors
no larger than its argument). -/
def RegOkEnts (cfg : MapperCfg) (P : Nat → Prop) (stOld stNew : MState) : Prop :=
  ∃ ents, stNew.registry = ents ++ stOld.registry ∧
    ∀ p ∈ ents, ∃ t',
      p.1 = RegKey.struct t' cfg.asInput cfg.asMutable cfg.suffix ∧ P (sizeOf t')

/-- a `map` result is either `None` or a validated, non-top-level-non-null
value. -/
def ResOk (cfg : MapperCfg) (st' : MState) (r : Option GVal) : Prop :=
  ∀ g, r = some g →
    validate st' cfg.asInput (some g) = true ∧ isNonNullV g = false

/-- a `_map` result is either `None`, or not top-level non-null and either
validated or the one invalid combination: an interface built by an
input-flavored mapper. -/
def ResOkRaw (cfg : MapperCfg) (t : PyType) (st' : MState) (r : Option GVal) :
    Prop :=
  ∀ g, r = some g →
    isNonNullV g = false ∧
      (validate st' cfg.asInput (some g) = true ∨
        (cfg.asInput = true ∧ is_interface t cfg.schema = true))

/-- a `map_to_interface` result is not top-level non-null and validated
unless the mapper is input-flavored. -/
def ResOkIface (cfg : MapperCfg) (st' : MState) (r : Option GVal) : Prop :=
  ∀ g, r = some g →
    isNonNullV g = false ∧
      (validate st' cfg.asInput (some g) = true ∨ cfg.asInput = true)

/-- every mapped element of a `mapEach` result list is validated and not
top-level non-null, judged at the final state. -/
def ResOkEach (cfg : MapperCfg) (st' : MState)
    (pairs : List (PyType × Option GVal)) : Prop :=
  ∀ p ∈ pairs, ∀ g, p.2 = some g →
    validate st' cfg.asInput (some g) = true ∧ isNonNullV g = false

/-! # Theorems -/

/-! ## Helper lemmas for `get_class_funcs` (claim C8) -/

theorem matches_criterion_mono (a : Ann) (schema : Option Nat)
    (h : _matches_criterion a schema false = true) :
    _matches_criterion a schema true = true := by
  simp only [_matches_criterion, Bool.false_and, Bool.or_false] at h
  simp [_matches_criterion, h]

theorem condAdd_weaken (c : Bool) (acc : List (String × Ann)) (ka : String × Ann)
    (n : String) (hn : n ∈ acc.map Prod.fst) :
    n ∈ (if c then acc ++ [ka] else acc).map Prod.fst := by
  by_cases h : c = true
  · rw [if_pos h]
    simp only [List.map_append, List.mem_append]
    exact Or.inl hn
  · rw [if_neg h]
    exact hn

theorem condAdd_mono (c₁ c₂ : Bool) (himp : c₁ = true → c₂ = true)
    (acc₁ acc₂ : List (String × Ann)) (ka : String × Ann)
    (hsub : ∀ n, n ∈ acc₁.map Prod.fst → n ∈ acc₂.map Prod.fst)
    (n : String) (hn : n ∈ (if c₁ then acc₁ ++ [ka] else acc₁).map Prod.fst) :
    n ∈ (if c₂ then acc₂ ++ [ka] else acc₂).map Prod.fst := by
  by_cases h1 : c₁ = true
  · rw [if_pos h1] at hn
    rw [if_pos (himp h1)]
    simp only [List.map_append, List.mem_append] at hn ⊢
    exact hn.imp (hsub n) id
  · rw [if_neg h1] at hn
    exact condAdd_weaken c₂ acc₂ ka n (hsub n hn)

theorem processStep_names_mono (schema : Option Nat) (km : String × Member)
    (acc₁ acc₂ : List (String × Ann))
    (hsub : ∀ n, n ∈ acc₁.map Prod.fst → n ∈ acc₂.map Prod.fst) :
    ∀ n, n ∈ (processStep schema false acc₁ km).map Prod.fst →
      n ∈ (processStep schema true acc₂ km).map Prod.fst := by
  intro n hn
  rcases km with ⟨key, m⟩
  have hmm : ∀ a : Ann,
      (is_graphql a schema && _matches_criterion a schema false) = true →
      (is_graphql a schema && _matches_criterion a schema true) = true := by
    intro a h
    rcases Bool.and_eq_true_iff.mp h with ⟨hg, hm⟩
    exact Bool.and_eq_true_iff.mpr ⟨hg, matches_criterion_mono a schema hm⟩
  cases m with
  | plain a =>
    simp only [processStep] at hn ⊢
    exact hsub n hn
  | call a =>
    simp only [processStep] at hn ⊢
    exact condAdd_mono _ _ (hmm a) acc₁ acc₂ (key, a) hsub n hn
  | prop fget fset =>
    simp only [processStep, Bool.false_eq_true, if_false] at hn
    simp only [processStep, if_true]
    have hmid : n ∈ (match fget with
        | some a =>
          if is_graphql a schema && _matches_criterion a schema true then
            acc₂ ++ [(key, a)]
          else acc₂
        | none => acc₂).map Prod.fst := by
      cases fget with
      | none => exact hsub n hn
      | some a => exact condAdd_mono _ _ (hmm a) acc₁ acc₂ (key, a) hsub n hn
    cases fset with
    | none => exact hmid
    | some a => exact condAdd_weaken _ _ (key, a) n hmid

theorem processFold_names_mono (schema : Option Nat)
    (ms : List (String × Member)) :
    ∀ (acc₁ acc₂ : List (String × Ann)),
      (∀ n, n ∈ acc₁.map Prod.fst → n ∈ acc₂.map Prod.fst) →
      ∀ n, n ∈ (ms.foldl (processStep schema false) acc₁).map Prod.fst →
        n ∈ (ms.foldl (processStep schema true) acc₂).map Prod.fst := by
  induction ms with
  | nil =>
    intro acc₁ acc₂ hsub n hn
    simp only [List.foldl_nil] at hn ⊢
    exact hsub n hn
  | cons km rest ih =>
    intro acc₁ acc₂ hsub n hn
    simp only [List.foldl_cons] at hn ⊢
    exact ih _ _ (processStep_names_mono schema km acc₁ acc₂ hsub) n hn

theorem dedupFold_names (l : List (String × Ann)) :
    ∀ (acc : List (String × Ann)) (n : String),
      (n ∈ (l.foldl dedupStep acc).map Prod.fst ↔
        n ∈ acc.map Prod.fst ∨ n ∈ l.map Prod.fst) := by
  induction l with
  | nil => intro acc n; simp
  | cons kf rest ih =>
    intro acc n
    simp only [List.foldl_cons]
    rw [ih]
    unfold dedupStep
    by_cases hk : acc.all (fun item => item.1 ≠ kf.1) = true
    · rw [if_pos hk]
      simp only [List.map_append, List.mem_append, List.map_cons, List.mem_cons,
        List.map_nil, List.not_mem_nil, or_false]
      tauto
    · rw [if_neg hk]
      have hkf : kf.1 ∈ acc.map Prod.fst := by
        simp only [List.all_eq_true, decide_eq_true_eq] at hk
        push_neg at hk
        obtain ⟨item, hitem, heq⟩ := hk
        rw [← heq]
        exact List.mem_map_of_mem Prod.fst hitem
      simp only [List.map_cons, List.mem_cons]
      constructor
      · tauto
      · rintro (h | hh)
        · exact Or.inl h
        · rcases hh with h | h
          · exact Or.inl (by rw [h]; exact hkf)
          · exact Or.inr h

/-- C8: for every class and schema identity, every member name selected by
`get_class_funcs` in the query flavor (`mutable=False`, role `"field"`) is
also selected in the mutable flavor (`mutable=True`, which additionally
admits `"mutable_field"` members), so the mutable flavor's name set is a
superset of the query flavor's. -/
theorem get_class_funcs_mutable_superset
    (mro : List (List (String × Member))) (hook : List (String × Ann))
    (schema : Option Nat) (n : String)
    (h : n ∈ (get_class_funcs mro hook schema false).map Prod.fst) :
    n ∈ (get_class_funcs mro hook schema true).map Prod.fst := by
  unfold get_class_funcs dedupKeys at h ⊢
  rw [dedupFold_names] at h ⊢
  rcases h with h | h
  · simp at h
  · right
    unfold processMembers at h ⊢
    exact processFold_names_mono schema _ [] []
      (by intro x hx; simp at hx) n h

/-- C8 witness: a concrete class with one query field and one mutable-only
field; the query-flavor name is selected in the mutable flavor as well. -/
theorem get_class_funcs_mutable_superset_witness :
    ("value" ∈ (get_class_funcs
        [[("value", Member.call
            { graphql := true,
              schemas := some [(none, { graphql_type := some "field" })] }),
          ("update", Member.call
            { graphql := true,
              schemas := some [(none, { graphql_type := some "mutable_field" })] })]]
        [] none false).map Prod.fst) ∧
    ("value" ∈ (get_class_funcs
        [[("value", Member.call
            { graphql := true,
              schemas := some [(none, { graphql_type := some "field" })] }),
          ("update", Member.call
            { graphql := true,
              schemas := some [(none, { graphql_type := some "mutable_field" })] })]]
        [] none true).map Prod.fst) :=
  ⟨by decide, get_class_funcs_mutable_superset _ _ _ _ (by decide)⟩

/-! ## Claim C9: `rmap` is invariant under wrapper layers -/

/-- C9: the reverse mapping `rmap` strips every `of_type` wrapper layer before
consulting the reverse registry, so `rmap` of a `GraphQLNonNull`- or
`GraphQLList`-wrapped type returns the same originating descriptor as `rmap`
of the wrapped type itself. -/
theorem rmap_wrapper_invariant (st : MState) (g : GVal) :
    rmap st (GVal.nonNull g) = rmap st g ∧ rmap st (GVal.listOf g) = rmap st g := by
  constructor <;> rfl

/-! ## Claim C5: enum serialization of unmapped values -/

/-- C5 counterexample: the claim fails as stated — a falsy unmapped outbound
value (here the int `0` against a lookup that only maps `1`) serializes to
Python `None`, not to the `Undefined` sentinel, because the serializer's
truthiness/hashability guard short-circuits before the reverse lookup. -/
theorem enum_serialize_falsy_counterexample :
    ([((PyValue.intV 1), "A")].lookup
        (enumUnderlyingValue (PyValue.intV 0)) = none) ∧
    enum_serialize [((PyValue.intV 1), "A")] (PyValue.intV 0) =
      SerializeResult.nullRes ∧
    SerializeResult.nullRes ≠ SerializeResult.undefinedRes :=
  ⟨by decide, by decide, by decide⟩

/-- C5 amended: for every truthy, hashable outbound native value whose
(enum-unwrapped) value has no entry in the reverse lookup, `serialize`
returns the explicit `Undefined` sentinel — in particular not null; falsy or
unhashable values instead short-circuit to null. -/
theorem enum_serialize_unmapped_undefined (lookup : List (PyValue × String))
    (v : PyValue) (htruthy : pyTruthy v = true) (hhash : pyHashable v = true)
    (hunmapped : lookup.lookup (enumUnderlyingValue v) = none) :
    enum_serialize lookup v = SerializeResult.undefinedRes ∧
      enum_serialize lookup v ≠ SerializeResult.nullRes := by
  have hres : enum_serialize lookup v = SerializeResult.undefinedRes := by
    unfold enum_serialize
    simp [htruthy, hhash, hunmapped]
  exact ⟨hres, by simp [hres]⟩

/-- C5 witness: a concrete truthy unmapped value serializes to `Undefined`. -/
theorem enum_serialize_unmapped_undefined_witness :
    (pyTruthy (PyValue.intV 5) = true ∧ pyHashable (PyValue.intV 5) = true ∧
      [((PyValue.intV 1), "A")].lookup
        (enumUnderlyingValue (PyValue.intV 5)) = none) ∧
    (enum_serialize [((PyValue.intV 1), "A")] (PyValue.intV 5) =
        SerializeResult.undefinedRes ∧
      enum_serialize [((PyValue.intV 1), "A")] (PyValue.intV 5) ≠
        SerializeResult.nullRes) :=
  ⟨⟨by decide, by decide, by decide⟩,
    enum_serialize_unmapped_undefined _ _ (by decide) (by decide) (by decide)⟩

/-! ## Claim C6: missing return annotation is a fatal construction error -/

/-- C6: for every callable whose reflected type hints contain no return type,
`map_to_field` raises `GraphQLTypeMapInvalid` (it does not return null), and
the error message includes both the owning type name and the field key. -/
theorem map_to_field_no_return_invalid (cfg : MapperCfg) (f : PyFunc)
    (name key : String) (st : MState) (h : f.ret = none) :
    ∃ msg, map_to_field cfg f name key st = .error (.typeMapInvalid msg) ∧
      (∃ b, msg = "Field '" ++ name ++ b) ∧
      (∃ c d, msg = c ++ key ++ d) := by
  refine ⟨"Field '" ++ name ++ "." ++ key ++ "' with function (" ++ f.name ++
    ") did not specify a valid return type.", ?_, ?_, ?_⟩
  · unfold map_to_field has_single_type_union_return
    simp [h]
  · exact ⟨"." ++ key ++ "' with function (" ++ f.name ++
      ") did not specify a valid return type.", by simp [String.append_assoc]⟩
  · exact ⟨"Field '" ++ name ++ ".",
      "' with function (" ++ f.name ++ ") did not specify a valid return type.",
      by simp [String.append_assoc]⟩

/-- C6 witness: a concrete callable with no return annotation raises with
both the owning type name and the field key in the message. -/
theorem map_to_field_no_return_invalid_witness :
    ({ name := "f" : PyFunc }.ret = none) ∧
    (∃ msg, map_to_field {} { name := "f" } "Root" "greet" {} =
        .error (.typeMapInvalid msg) ∧
      (∃ b, msg = "Field '" ++ "Root" ++ b) ∧
      (∃ c d, msg = c ++ "greet" ++ d)) :=
  ⟨rfl, map_to_field_no_return_invalid {} { name := "f" } "Root" "greet" {} rfl⟩

/-! ## State-evolution lemmas for the mapper (claims C1, C7, C10) -/

theorem get?_append_some {α : Type} (l ext : List α) (r : Nat) (o : α)
    (h : l.get? r = some o) : (l ++ ext).get? r = some o := by
  have hlt : r < l.length := by
    by_contra hge
    rw [List.get?_eq_none.mpr (Nat.le_of_not_lt hge)] at h
    exact Option.noConfusion h
  rw [List.get?_eq_getElem?] at h ⊢
  rw [List.getElem?_append_left hlt]
  exact h

theorem isInputType_arena_ext (st st' : MState)
    (h : ∃ ext, st'.arena = st.arena ++ ext) (g : GVal)
    (hg : isInputType st g = true) : isInputType st' g = true := by
  obtain ⟨ext, hext⟩ := h
  induction g with
  | scalar k => simp [isInputType]
  | named r =>
    unfold isInputType arenaGet at hg ⊢
    rcases hget : st.arena.get? r with _ | o
    · rw [hget] at hg; exact absurd hg (by simp)
    · rw [hget] at hg
      rw [hext, get?_append_some st.arena ext r o hget]
      exact hg
  | nonNull v ih => exact ih (by simpa [isInputType] using hg)
  | listOf v ih => exact ih (by simpa [isInputType] using hg)

theorem isInputType_arena_eq (st st' : MState) (h : st'.arena = st.arena)
    (g : GVal) : isInputType st' g = isInputType st g := by
  induction g with
  | scalar k => simp [isInputType]
  | named r => unfold isInputType arenaGet; rw [h]
  | nonNull v ih => simpa [isInputType] using ih
  | listOf v ih => simpa [isInputType] using ih

theorem validate_arena_eq (st st' : MState) (h : st'.arena = st.arena)
    (inp : Bool) (v : Option GVal) : validate st' inp v = validate st inp v := by
  cases v with
  | none => simp [validate]
  | some g =>
    unfold validate
    cases g <;> simp [isInputType_arena_eq st st' h]

theorem validate_some_eq (st : MState) (inp : Bool) (g : GVal) :
    validate st inp (some g) =
      (!inp || isInputType st (match g with | .nonNull u => u | u => u)) := by
  unfold validate
  cases inp <;> cases g <;> simp [isInputType]

theorem validate_arena_ext (st st' : MState)
    (h : ∃ ext, st'.arena = st.arena ++ ext) (inp : Bool) (g : GVal)
    (hv : validate st inp (some g) = true) : validate st' inp (some g) = true := by
  rw [validate_some_eq] at hv ⊢
  cases inp with
  | false => simp
  | true =>
    simp only [Bool.not_true, Bool.false_or] at hv ⊢
    exact isInputType_arena_ext st st' h _ hv

theorem arenaExt_refl (st : MState) : ArenaExt st st := ⟨[], by simp⟩

theorem arenaExt_trans {st₁ st₂ st₃ : MState} (h₁ : ArenaExt st₁ st₂)
    (h₂ : ArenaExt st₂ st₃) : ArenaExt st₁ st₃ := by
  obtain ⟨e₁, h₁⟩ := h₁
  obtain ⟨e₂, h₂⟩ := h₂
  exact ⟨e₁ ++ e₂, by rw [h₂, h₁, List.append_assoc]⟩

theorem regOkEnts_refl (cfg : MapperCfg) (P : Nat → Prop) (st : MState) :
    RegOkEnts cfg P st st := ⟨[], by simp, by simp⟩

theorem regOkEnts_trans {cfg : MapperCfg} {P : Nat → Prop} {st₁ st₂ st₃ : MState}
    (h₁ : RegOkEnts cfg P st₁ st₂) (h₂ : RegOkEnts cfg P st₂ st₃) :
    RegOkEnts cfg P st₁ st₃ := by
  obtain ⟨e₁, he₁, hk₁⟩ := h₁
  obtain ⟨e₂, he₂, hk₂⟩ := h₂
  refine ⟨e₂ ++ e₁, by rw [he₂, he₁, List.append_assoc], ?_⟩
  intro p hp
  rcases List.mem_append.mp hp with hp | hp
  · exact hk₂ p hp
  · exact hk₁ p hp

theorem RegOkEnts.mono {cfg : MapperCfg} {P Q : Nat → Prop} {st₁ st₂ : MState}
    (h : RegOkEnts cfg P st₁ st₂) (himp : ∀ n, P n → Q n) :
    RegOkEnts cfg Q st₁ st₂ := by
  obtain ⟨e, he, hk⟩ := h
  refine ⟨e, he, ?_⟩
  intro p hp
  obtain ⟨t', ht', hP⟩ := hk p hp
  exact ⟨t', ht', himp _ hP⟩

theorem lookup_append_of_forall_ne {α β : Type} [DecidableEq α]
    (ents reg : List (α × β)) (k : α) (h : ∀ p ∈ ents, p.1 ≠ k) :
    (ents ++ reg).lookup k = reg.lookup k := by
  induction ents with
  | nil => simp
  | cons p rest ih =>
    have hne : p.1 ≠ k := h p (by simp)
    simp only [List.cons_append, List.lookup]
    have hbeq : (k == p.1) = false := by
      simpa using Ne.symm hne
    rw [hbeq]
    simpa using ih (fun q hq => h q (by simp [hq]))

theorem RegOkEnts.lookup_lt {cfg : MapperCfg} {t : PyType} {st₁ st₂ : MState}
    (h : RegOkEnts cfg (fun n => n < sizeOf t) st₁ st₂) :
    st₂.registry.lookup (genericKey cfg t) = st₁.registry.lookup (genericKey cfg t) := by
  obtain ⟨ents, hents, hk⟩ := h
  rw [hents]
  apply lookup_append_of_forall_ne
  intro p hp
  obtain ⟨t', ht', hlt⟩ := hk p hp
  rw [ht']
  unfold genericKey
  intro hcontra
  have : t' = t := by
    injection hcontra
  subst this
  exact absurd hlt (by omega)

theorem validate_of_arena_eq (st : MState) {st' : MState}
    (h : st'.arena = st.arena) {inp : Bool} {v : Option GVal}
    (hv : validate st inp v = true) : validate st' inp v = true := by
  rw [validate_arena_eq st st' h]
  exact hv

theorem GoodSt.of_ext {st st' : MState} (hreg : st'.registry = st.registry)
    (hext : ArenaExt st st') (h : GoodSt st) : GoodSt st' := by
  intro t inp mtb suf g hlook
  rw [hreg] at hlook
  obtain ⟨hval, hnn⟩ := h t inp mtb suf g hlook
  exact ⟨validate_arena_ext st st' hext inp g hval, hnn⟩

theorem GoodSt.insert_none {st : MState} (h : GoodSt st) (k : RegKey) :
    GoodSt { st with registry := (k, none) :: st.registry } := by
  intro t inp mtb suf g hlook
  simp only [List.lookup] at hlook
  rcases hbeq : (RegKey.struct t inp mtb suf == k) with _ | _
  · rw [hbeq] at hlook
    simp only at hlook
    obtain ⟨hval, hnn⟩ := h t inp mtb suf g hlook
    refine ⟨?_, hnn⟩
    exact validate_of_arena_eq st (by rfl) hval
  · rw [hbeq] at hlook
    simp at hlook

theorem GoodSt.insert_some {st : MState} (h : GoodSt st) (cfg : MapperCfg)
    (t₀ : PyType) (g₀ : GVal) (rev' : List (GVal × PyType))
    (hval : validate st cfg.asInput (some g₀) = true) (hnn : isNonNullV g₀ = false) :
    GoodSt { st with
      registry := (genericKey cfg t₀, some g₀) :: st.registry,
      revReg := rev' } := by
  intro t inp mtb suf g hlook
  simp only [List.lookup] at hlook
  rcases hbeq : (RegKey.struct t inp mtb suf == genericKey cfg t₀) with _ | _
  · rw [hbeq] at hlook
    simp only at hlook
    obtain ⟨hv, hn⟩ := h t inp mtb suf g hlook
    refine ⟨?_, hn⟩
    exact validate_of_arena_eq st (by rfl) hv
  · rw [hbeq] at hlook
    simp only [Option.some.injEq] at hlook
    have hkeys : RegKey.struct t inp mtb suf = genericKey cfg t₀ := by
      simpa using hbeq
    have hinp : inp = cfg.asInput := by
      unfold genericKey at hkeys
      injection hkeys
    subst hlook
    rw [hinp]
    refine ⟨?_, hnn⟩
    exact validate_of_arena_eq st (by rfl) hval

theorem allocObj_arena (st : MState) (o : GObj) :
    (allocObj st o).2.arena = st.arena ++ [o] := rfl

theorem allocObj_registry (st : MState) (o : GObj) :
    (allocObj st o).2.registry = st.registry := rfl

theorem allocObj_val (st : MState) (o : GObj) :
    (allocObj st o).1 = GVal.named st.arena.length := rfl

theorem arenaGet_alloc (st : MState) (o : GObj) :
    arenaGet (allocObj st o).2 st.arena.length = some o := by
  unfold arenaGet
  rw [allocObj_arena]
  simp

theorem validate_scalar_true (st : MState) (inp : Bool) (k : ScalarKind) :
    validate st inp (some (GVal.scalar k)) = true := by
  rw [validate_some_eq]
  cases inp <;> simp [isInputType]

theorem validate_false_any (st : MState) (g : GVal) :
    validate st false (some g) = true := by
  rw [validate_some_eq]; simp

theorem isInputType_named_kind (st : MState) (r : Nat) (o : GObj)
    (hget : arenaGet st r = some o) :
    isInputType st (GVal.named r) =
      (o.kind = GKind.inputObject || o.kind = GKind.enum) := by
  unfold isInputType
  rw [hget]

theorem validate_named_input (st : MState) (inp : Bool) (r : Nat) (o : GObj)
    (hget : arenaGet st r = some o)
    (hk : o.kind = GKind.inputObject ∨ o.kind = GKind.enum) :
    validate st inp (some (GVal.named r)) = true := by
  rw [validate_some_eq]
  cases inp with
  | false => simp
  | true =>
    simp only [Bool.not_true, Bool.false_or]
    rw [isInputType_named_kind st r o hget]
    rcases hk with hk | hk <;> simp [hk]

theorem validate_named_noninput_false (st : MState) (r : Nat) (o : GObj)
    (hget : arenaGet st r = some o)
    (hk : o.kind ≠ GKind.inputObject ∧ o.kind ≠ GKind.enum) :
    validate st true (some (GVal.named r)) = false := by
  rw [validate_some_eq]
  simp only [Bool.not_true, Bool.false_or]
  rw [isInputType_named_kind st r o hget]
  simp [hk.1, hk.2]

theorem map_to_enum_spec (st : MState) (n : String)
    (vs : List (String × PyValue)) :
    map_to_enum st n vs =
      (some (.named st.arena.length),
        { st with arena := st.arena ++
            [{ kind := .enum, name := n ++ "Enum", enumValues := vs }] }) := rfl

theorem map_to_input_spec (cfg : MapperCfg) (st : MState) (n : String) :
    map_to_input cfg st n =
      (some (.named st.arena.length),
        { st with arena := st.arena ++
            [{ kind := .inputObject, name := n ++ cfg.suffix ++ "Input" }] }) := rfl

theorem map_to_object_spec (cfg : MapperCfg) (st : MState) (n : String)
    (mro : List (List (String × Member))) (hook : List (String × Ann)) :
    ∃ (m : List ((String × String) × List (MetaKey × PyValue))) (o : GObj),
      map_to_object cfg st n mro hook =
        (some (.named st.arena.length),
          { st with arena := st.arena ++ [o], meta := m }) ∧
      o.kind = GKind.object :=
  ⟨_, _, rfl, rfl⟩

theorem arenaGet_of_concat {st' : MState} (st : MState) (o : GObj)
    (h : st'.arena = st.arena ++ [o]) : arenaGet st' st.arena.length = some o := by
  unfold arenaGet
  rw [h]
  rw [List.get?_eq_getElem?]
  exact List.getElem?_concat_length st.arena o

theorem alloc_case_props (cfg : MapperCfg) (st : MState) (o : GObj)
    (hG : GoodSt st) (P : Nat → Prop) :
    ArenaExt st { st with arena := st.arena ++ [o] } ∧
    RegOkEnts cfg P st { st with arena := st.arena ++ [o] } ∧
    GoodSt { st with arena := st.arena ++ [o] } := by
  refine ⟨⟨[o], rfl⟩, ⟨[], by simp, by simp⟩, ?_⟩
  exact GoodSt.of_ext (by rfl) ⟨[o], by rfl⟩ hG

theorem alloc_case_props_meta (cfg : MapperCfg) (st : MState) (o : GObj)
    (m : List ((String × String) × List (MetaKey × PyValue)))
    (hG : GoodSt st) (P : Nat → Prop) :
    ArenaExt st { st with arena := st.arena ++ [o], meta := m } ∧
    RegOkEnts cfg P st { st with arena := st.arena ++ [o], meta := m } ∧
    GoodSt { st with arena := st.arena ++ [o], meta := m } := by
  refine ⟨⟨[o], rfl⟩, ⟨[], by simp, by simp⟩, ?_⟩
  exact GoodSt.of_ext (by rfl) ⟨[o], by rfl⟩ hG

theorem RegOkEnts.cons_key {cfg : MapperCfg} {P : Nat → Prop} {st st₁ : MState}
    (h : RegOkEnts cfg P st st₁) (t : PyType) (v : Option GVal)
    (hP : P (sizeOf t)) {st₂ : MState}
    (hst₂ : st₂.registry = (genericKey cfg t, v) :: st₁.registry) :
    RegOkEnts cfg P st st₂ := by
  obtain ⟨ents, he, hb⟩ := h
  refine ⟨(genericKey cfg t, v) :: ents, by rw [hst₂, he]; simp, ?_⟩
  intro p hp
  rcases List.mem_cons.mp hp with hp | hp
  · exact ⟨t, by rw [hp]; rfl, hP⟩
  · exact hb p hp

theorem isObject_isInput_false (st : MState) (g : GVal)
    (h : isObjectTypeV st g = true) : isInputType st g = false := by
  cases g with
  | named r =>
    unfold isObjectTypeV at h
    unfold isInputType
    cases hget : arenaGet st r with
    | none => simp [hget] at h
    | some o =>
      simp only [hget, decide_eq_true_eq] at h
      simp [hget, h]
  | scalar k => exact absurd h (by simp [isObjectTypeV])
  | nonNull v => exact absurd h (by simp [isObjectTypeV])
  | listOf v => exact absurd h (by simp [isObjectTypeV])

theorem stripNonNull_of_not_nonNull (g : GVal) (h : isNonNullV g = false) :
    (match g with | GVal.nonNull u => u | u => u) = g := by
  cases g with
  | nonNull u => exact absurd h (by simp [isNonNullV])
  | scalar k => rfl
  | named r => rfl
  | listOf v => rfl

theorem RegOkEnts.of_regeq {cfg : MapperCfg} {P : Nat → Prop} {st st₁ : MState}
    (h : RegOkEnts cfg P st st₁) {st₂ : MState}
    (hreg : st₂.registry = st₁.registry) : RegOkEnts cfg P st st₂ := by
  obtain ⟨ents, he, hb⟩ := h
  exact ⟨ents, by rw [hreg, he], hb⟩

theorem stripOne_eq_self : ∀ (g : GVal), isNonNullV g = false →
    (match g with | GVal.nonNull u => u | u => u) = g := by
  intro g
  cases g with
  | nonNull u => intro h; exact absurd h (by simp [isNonNullV])
  | scalar k => intro h; rfl
  | named r => intro h; rfl
  | listOf v => intro h; rfl

theorem listFinish (cfg : MapperCfg) {st stx : MState} {bound : Nat}
    (sub : Option GVal) (nullable : Bool)
    (ha : ArenaExt st stx) (hr : RegOkEnts cfg (fun n => n ≤ bound) st stx)
    (hg : GoodSt stx) (hres : ResOk cfg stx sub) :
    ArenaExt st (match sub with
      | none => ((none : Option GVal), stx)
      | some s => (some (GVal.listOf (if nullable then s else GVal.nonNull s)), stx)).2 ∧
    RegOkEnts cfg (fun n => n ≤ bound) st (match sub with
      | none => ((none : Option GVal), stx)
      | some s => (some (GVal.listOf (if nullable then s else GVal.nonNull s)), stx)).2 ∧
    GoodSt (match sub with
      | none => ((none : Option GVal), stx)
      | some s => (some (GVal.listOf (if nullable then s else GVal.nonNull s)), stx)).2 ∧
    ResOk cfg (match sub with
      | none => ((none : Option GVal), stx)
      | some s => (some (GVal.listOf (if nullable then s else GVal.nonNull s)), stx)).2
      (match sub with
      | none => ((none : Option GVal), stx)
      | some s => (some (GVal.listOf (if nullable then s else GVal.nonNull s)), stx)).1 := by
  cases sub with
  | none => exact ⟨ha, hr, hg, by intro g hg'; cases hg'⟩
  | some s =>
    refine ⟨ha, hr, hg, ?_⟩
    intro g hg'
    have hg2 := Option.some.inj hg'
    subst hg2
    obtain ⟨hv, hnn⟩ := hres s rfl
    refine ⟨?_, rfl⟩
    rw [validate_some_eq] at hv ⊢
    cases hin : cfg.asInput with
    | false => simp
    | true =>
      rw [hin] at hv
      simp only [Bool.not_true, Bool.false_or] at hv ⊢
      rw [stripOne_eq_self s hnn] at hv
      cases nullable with
      | true => simpa [isInputType] using hv
      | false => simpa [isInputType] using hv

set_option maxHeartbeats 1600000 in
/-- Combined state-evolution invariant of the mapper, proved by the mutual
functional induction of `map`: every call extends the arena append-only, adds
only structural registry keys of its own flavor bounded by its argument's
size, preserves well-formedness, and returns `None` or a validated,
non-top-level-non-null value (for `_map`, allowing the single invalid
combination of an interface built in input flavor). -/
theorem map_invariants (cfg : MapperCfg) :
    (∀ (t : PyType) (st : MState), GoodSt st →
        ArenaExt st (map cfg t st).2 ∧
        RegOkEnts cfg (fun n => n ≤ sizeOf t) st (map cfg t st).2 ∧
        GoodSt (map cfg t st).2 ∧ ResOk cfg (map cfg t st).2 (map cfg t st).1) ∧
    (∀ (t : PyType) (st : MState), GoodSt st →
        ArenaExt st (_map cfg t st).2 ∧
        RegOkEnts cfg (fun n => n < sizeOf t) st (_map cfg t st).2 ∧
        GoodSt (_map cfg t st).2 ∧ ResOkRaw cfg t (_map cfg t st).2 (_map cfg t st).1) ∧
    (∀ (clsName : String) (mro : List (List (String × Member)))
        (hook : List (String × Ann)) (subs : PyTypeList) (st : MState), GoodSt st →
        ArenaExt st (map_to_interface cfg clsName mro hook subs st).2 ∧
        RegOkEnts cfg (fun n => n ≤ sizeOf subs) st
          (map_to_interface cfg clsName mro hook subs st).2 ∧
        GoodSt (map_to_interface cfg clsName mro hook subs st).2 ∧
        ResOkIface cfg (map_to_interface cfg clsName mro hook subs st).2
          (map_to_interface cfg clsName mro hook subs st).1) ∧
    (∀ (skip : PyType → Bool) (l : PyTypeList) (st : MState), GoodSt st →
        ArenaExt st (mapEach cfg skip l st).2 ∧
        RegOkEnts cfg (fun n => n ≤ sizeOf l) st (mapEach cfg skip l st).2 ∧
        GoodSt (mapEach cfg skip l st).2 ∧
        ResOkEach cfg (mapEach cfg skip l st).2 (mapEach cfg skip l st).1) ∧
    (∀ (elem : PyType) (st : MState), GoodSt st →
        ArenaExt st (map_to_list cfg elem st).2 ∧
        RegOkEnts cfg (fun n => n ≤ sizeOf elem) st (map_to_list cfg elem st).2 ∧
        GoodSt (map_to_list cfg elem st).2 ∧
        ResOk cfg (map_to_list cfg elem st).2 (map_to_list cfg elem st).1) ∧
    (∀ (l : PyTypeList) (st : MState), GoodSt st →
        ArenaExt st (mapFirstNonNone cfg l st).2 ∧
        RegOkEnts cfg (fun n => n ≤ sizeOf l) st (mapFirstNonNone cfg l st).2 ∧
        GoodSt (mapFirstNonNone cfg l st).2 ∧
        ResOk cfg (mapFirstNonNone cfg l st).2 (mapFirstNonNone cfg l st).1) ∧
    (∀ (args : PyTypeList) (st : MState), GoodSt st →
        ArenaExt st (map_to_union cfg args st).2 ∧
        RegOkEnts cfg (fun n => n ≤ sizeOf args) st (map_to_union cfg args st).2 ∧
        GoodSt (map_to_union cfg args st).2 ∧
        ResOk cfg (map_to_union cfg args st).2 (map_to_union cfg args st).1) := by
  apply map.mutual_induct
  case cfg => exact cfg
  case case1 =>
    intro st hG
    rw [map]
    simp only [if_pos rfl]
    exact ⟨arenaExt_refl st, regOkEnts_refl cfg _ st, hG, by intro g hg; cases hg⟩
  case case2 =>
    intro t st hne v hlook hG
    rw [map]
    rw [if_neg hne, hlook]
    refine ⟨arenaExt_refl st, regOkEnts_refl cfg _ st, hG, ?_⟩
    intro g hg
    subst hg
    exact hG t cfg.asInput cfg.asMutable cfg.suffix g hlook
  case case6 =>
    intro st hG
    rw [_map]
    exact ⟨arenaExt_refl st, regOkEnts_refl cfg _ st, hG, by intro g hg; cases hg⟩
  case case7 =>
    intro st hG
    rw [_map]
    refine ⟨arenaExt_refl st, regOkEnts_refl cfg _ st, hG, ?_⟩
    intro g hg
    cases hg
    exact ⟨rfl, Or.inl (validate_scalar_true st cfg.asInput .json)⟩
  case case10 =>
    intro st c hG
    rw [_map]
    refine ⟨arenaExt_refl st, regOkEnts_refl cfg _ st, hG, ?_⟩
    intro g hg
    cases hs : map_to_scalar c with
    | none => rw [hs] at hg; cases hg
    | some k =>
      rw [hs] at hg
      simp only [Option.map_some] at hg
      cases hg
      exact ⟨rfl, Or.inl (validate_scalar_true st cfg.asInput k)⟩
  case case11 =>
    intro st name values hG
    rw [_map]
    rw [map_to_enum_spec]
    obtain ⟨ha, hr, hg'⟩ := alloc_case_props cfg st _ hG
      (fun n => n < sizeOf (PyType.enumC name values))
    refine ⟨ha, hr, hg', ?_⟩
    intro g hg
    cases hg
    refine ⟨rfl, Or.inl ?_⟩
    exact validate_named_input _ cfg.asInput _ _ (arenaGet_of_concat st _ rfl) (Or.inr rfl)
  case case20 =>
    intro skip st hG
    rw [mapEach]
    exact ⟨arenaExt_refl st, regOkEnts_refl cfg _ st, hG, by intro p hp; cases hp⟩
  case case25 =>
    intro st hG
    rw [mapFirstNonNone]
    exact ⟨arenaExt_refl st, regOkEnts_refl cfg _ st, hG, by intro g hg; cases hg⟩
  case case26 =>
    intro st tl ih hG
    rw [mapFirstNonNone]
    simp only [if_pos rfl]
    obtain ⟨ha, hr, hg', hres⟩ := ih hG
    exact ⟨ha, hr.mono (fun n hn => by simp only [PyTypeList.cons.sizeOf_spec]; omega),
      hg', hres⟩
  case case27 =>
    intro st hd tl hne ih hG
    rw [mapFirstNonNone]
    rw [if_neg hne]
    obtain ⟨ha, hr, hg', hres⟩ := ih hG
    exact ⟨ha, hr.mono (fun n hn => by simp only [PyTypeList.cons.sizeOf_spec]; omega),
      hg', hres⟩
  case case3 =>
    intro t st hne hlook st₁ heqmap ih hG
    rw [map]
    simp only [if_neg hne, hlook, heqmap]
    obtain ⟨ha, hr, hg₁, _⟩ := ih hG
    rw [heqmap] at ha hr hg₁
    refine ⟨arenaExt_trans ha ⟨[], by simp⟩, ?_, hg₁.insert_none _, by intro g hg; cases hg⟩
    exact (hr.mono (fun n hn => Nat.le_of_lt hn)).cons_key t none (Nat.le_refl _) (by rfl)
  case case4 =>
    intro t st hne hlook st₁ v hval heqmap ih hG
    rw [map]
    simp only [if_neg hne, hlook, heqmap, hval, if_true]
    obtain ⟨ha, hr, hg₁, hresraw⟩ := ih hG
    rw [heqmap] at ha hr hg₁
    have hfst : (_map cfg t st).1 = some v := by rw [heqmap]
    obtain ⟨hnn, _⟩ := hresraw v hfst
    refine ⟨arenaExt_trans ha ⟨[], by simp⟩,
      (hr.mono (fun n hn => Nat.le_of_lt hn)).cons_key t (some v) (Nat.le_refl _) (by rfl),
      ?_, ?_⟩
    · exact hg₁.insert_some cfg t v _ hval hnn
    · intro g hg
      cases hg
      refine ⟨?_, hnn⟩
      exact validate_of_arena_eq st₁ (by rfl) hval
  case case5 =>
    intro t st hne hlook st₁ v hnval heqmap ih hG
    rw [map]
    simp only [if_neg hne, hlook, heqmap, if_neg hnval]
    obtain ⟨ha, hr, hg₁, _⟩ := ih hG
    rw [heqmap] at ha hr hg₁
    exact ⟨ha, hr.mono (fun n hn => Nat.le_of_lt hn), hg₁, by intro g hg; cases hg⟩
  case case8 =>
    intro st args ih hG
    rw [_map]
    obtain ⟨ha, hr, hg', hres⟩ := ih hG
    refine ⟨ha, hr.mono (fun n hn => by simp only [PyType.unionT.sizeOf_spec]; omega),
      hg', ?_⟩
    intro g hg
    obtain ⟨hv, hnn⟩ := hres g hg
    exact ⟨hnn, Or.inl hv⟩
  case case9 =>
    intro st elem ih hG
    rw [_map]
    obtain ⟨ha, hr, hg', hres⟩ := ih hG
    refine ⟨ha, hr.mono (fun n hn => by simp only [PyType.listT.sizeOf_spec]; omega),
      hg', ?_⟩
    intro g hg
    obtain ⟨hv, hnn⟩ := hres g hg
    exact ⟨hnn, Or.inl hv⟩
  case case12 =>
    intro st hin hG
    rw [_map]
    rw [if_pos hin, map_to_input_spec]
    obtain ⟨ha, hr, hg'⟩ := alloc_case_props cfg st _ hG
      (fun n => n < sizeOf PyType.unionFlag)
    refine ⟨ha, hr, hg', ?_⟩
    intro g hg
    cases hg
    refine ⟨rfl, Or.inl ?_⟩
    exact validate_named_input _ cfg.asInput _ _ (arenaGet_of_concat st _ rfl) (Or.inl rfl)
  case case13 =>
    intro st hnin hG
    rw [_map]
    rw [if_neg hnin]
    obtain ⟨m, o, heq, hkind⟩ := map_to_object_spec cfg st "UnionFlagType" [] []
    rw [heq]
    obtain ⟨ha, hr, hg'⟩ := alloc_case_props_meta cfg st o m hG
      (fun n => n < sizeOf PyType.unionFlag)
    refine ⟨ha, hr, hg', ?_⟩
    intro g hg
    cases hg
    have hfalse : cfg.asInput = false := by
      cases h : cfg.asInput
      · rfl
      · exact absurd h hnin
    refine ⟨rfl, Or.inl ?_⟩
    rw [hfalse]
    exact validate_false_any _ _
  case case14 =>
    intro st hin hG
    rw [_map]
    rw [if_pos hin, map_to_input_spec]
    obtain ⟨ha, hr, hg'⟩ := alloc_case_props cfg st _ hG
      (fun n => n < sizeOf PyType.contextC)
    refine ⟨ha, hr, hg', ?_⟩
    intro g hg
    cases hg
    refine ⟨rfl, Or.inl ?_⟩
    exact validate_named_input _ cfg.asInput _ _ (arenaGet_of_concat st _ rfl) (Or.inl rfl)
  case case15 =>
    intro st hnin hG
    rw [_map]
    rw [if_neg hnin]
    obtain ⟨m, o, heq, hkind⟩ := map_to_object_spec cfg st "GraphQLContext" [] []
    rw [heq]
    obtain ⟨ha, hr, hg'⟩ := alloc_case_props_meta cfg st o m hG
      (fun n => n < sizeOf PyType.contextC)
    refine ⟨ha, hr, hg', ?_⟩
    intro g hg
    cases hg
    have hfalse : cfg.asInput = false := by
      cases h : cfg.asInput
      · rfl
      · exact absurd h hnin
    refine ⟨rfl, Or.inl ?_⟩
    rw [hfalse]
    exact validate_false_any _ _
  case case16 =>
    intro st name ann mro hook subs hif ih hG
    rw [_map]
    rw [if_pos hif]
    obtain ⟨ha, hr, hg', hres⟩ := ih hG
    refine ⟨ha, hr.mono (fun n hn => by simp only [PyType.classC.sizeOf_spec]; omega),
      hg', ?_⟩
    intro g hg
    obtain ⟨hnn, hv | hinp⟩ := hres g hg
    · exact ⟨hnn, Or.inl hv⟩
    · exact ⟨hnn, Or.inr ⟨hinp, hif⟩⟩
  case case17 =>
    intro st name ann mro hook subs hin hnif hG
    rw [_map]
    rw [if_neg hnif, if_pos hin, map_to_input_spec]
    obtain ⟨ha, hr, hg'⟩ := alloc_case_props cfg st _ hG
      (fun n => n < sizeOf (PyType.classC name ann mro hook subs))
    refine ⟨ha, hr, hg', ?_⟩
    intro g hg
    cases hg
    refine ⟨rfl, Or.inl ?_⟩
    exact validate_named_input _ cfg.asInput _ _ (arenaGet_of_concat st _ rfl) (Or.inl rfl)
  case case18 =>
    intro st name ann mro hook subs hnin hnif hG
    rw [_map]
    rw [if_neg hnif, if_neg hnin]
    obtain ⟨m, o, heq, hkind⟩ := map_to_object_spec cfg st name mro hook
    rw [heq]
    obtain ⟨ha, hr, hg'⟩ := alloc_case_props_meta cfg st o m hG
      (fun n => n < sizeOf (PyType.classC name ann mro hook subs))
    refine ⟨ha, hr, hg', ?_⟩
    intro g hg
    cases hg
    have hfalse : cfg.asInput = false := by
      cases h : cfg.asInput
      · rfl
      · exact absurd h hnin
    refine ⟨rfl, Or.inl ?_⟩
    rw [hfalse]
    exact validate_false_any _ _
  case case21 =>
    intro skip st hd tl hskip ih hG
    rw [mapEach]
    rw [if_pos hskip]
    obtain ⟨ha, hr, hg', hres⟩ := ih hG
    exact ⟨ha, hr.mono (fun n hn => by simp only [PyTypeList.cons.sizeOf_spec]; omega),
      hg', hres⟩
  case case22 =>
    intro skip st hd tl hnskip v st₁ heqmap pairs st₂ heqeach ih1 ih2 hG
    rw [mapEach]
    simp only [if_neg hnskip, heqmap, heqeach]
    obtain ⟨ha1, hr1, hg1, hres1⟩ := ih1 hG
    obtain ⟨ha2, hr2, hg2, hres2⟩ := ih2 (by rw [heqmap] at hg1; exact hg1)
    rw [heqmap] at ha1 hr1 hres1
    rw [heqeach] at ha2 hr2 hg2 hres2
    refine ⟨arenaExt_trans ha1 ha2, ?_, hg2, ?_⟩
    · exact regOkEnts_trans
        (hr1.mono (fun n hn => by simp only [PyTypeList.cons.sizeOf_spec]; omega))
        (hr2.mono (fun n hn => by simp only [PyTypeList.cons.sizeOf_spec]; omega))
    · intro p hp g hpg
      rcases List.mem_cons.mp hp with hp | hp
      · subst hp
        simp only at hpg
        obtain ⟨hv, hnn⟩ := hres1 g hpg
        exact ⟨validate_arena_ext st₁ st₂ ha2 cfg.asInput g hv, hnn⟩
      · exact hres2 p hp g hpg
  case case19 =>
    intro clsName mro hook subs st pairs st₁ heqeach funcs v st' heqalloc ih hG
    rw [map_to_interface]
    simp only [heqeach]
    dsimp only [allocObj]
    obtain ⟨ha, hr, hg₁, _⟩ := ih hG
    rw [heqeach] at ha hr hg₁
    refine ⟨arenaExt_trans ha ⟨_, by rfl⟩, hr.of_regeq (by rfl), ?_, ?_⟩
    · exact GoodSt.of_ext (by rfl) ⟨_, by rfl⟩ hg₁
    · intro g hg
      cases hg
      refine ⟨rfl, ?_⟩
      by_cases hinp : cfg.asInput = true
      · exact Or.inr hinp
      · have hfalse : cfg.asInput = false := by
          cases h : cfg.asInput
          · rfl
          · exact absurd h hinp
        refine Or.inl ?_
        rw [hfalse]
        exact validate_false_any _ _
  case case28 =>
    intro args st pairs st₁ heqeach hcond ih hG
    rw [map_to_union]
    simp only [heqeach]
    rw [if_pos hcond]
    obtain ⟨ha, hr, hg', hres⟩ := ih hG
    rw [heqeach] at ha hr hg' hres
    refine ⟨ha, hr, hg', ?_⟩
    intro g hg
    rcases pairs with _ | ⟨p, _ | ⟨q, rest⟩⟩
    · simp at hg
    · simp only at hg
      exact hres p (by simp) g hg
    · simp at hg
  case case29 =>
    intro args st pairs st₁ heqeach hncond valids hvalids ih hG
    rw [map_to_union]
    simp only [heqeach]
    rw [if_neg hncond]
    obtain ⟨ha, hr, hg', _⟩ := ih hG
    rw [heqeach] at ha hr hg'
    split_ifs with hsplit
    · exact ⟨ha, hr, hg', by intro g hg; cases hg⟩
    · exact absurd hvalids hsplit
  case case30 =>
    intro args st pairs st₁ heqeach hncond valids hvnne v st' heqalloc ih hG
    rw [map_to_union]
    simp only [heqeach]
    rw [if_neg hncond]
    obtain ⟨ha, hr, hg₁, hres⟩ := ih hG
    rw [heqeach] at ha hr hg₁ hres
    split_ifs with hsplit
    · exact absurd hsplit hvnne
    · unfold allocObj at heqalloc
      injection heqalloc with hv hst'
      subst hv
      subst hst'
      refine ⟨arenaExt_trans ha ⟨_, by rfl⟩, hr.of_regeq (by rfl), ?_, ?_⟩
      · exact GoodSt.of_ext (by rfl) ⟨_, by rfl⟩ hg₁
      · intro g hg
        cases hg
        refine ⟨?_, rfl⟩
        by_cases hinp : cfg.asInput = true
        · exfalso
          obtain ⟨g₀, hg₀⟩ := List.exists_mem_of_ne_nil _ hvnne
          have hg₀' : g₀ ∈ List.filterMap
              (fun p => match p.2 with
                | some g => if isObjectTypeV st₁ g = true then some g else none
                | none => none) pairs := hg₀
          obtain ⟨a, hamem, hfa⟩ := List.mem_filterMap.mp hg₀'
          rcases ha2 : a.2 with _ | gm
          · rw [ha2] at hfa; simp at hfa
          · rw [ha2] at hfa
            simp only at hfa
            by_cases hobj : isObjectTypeV st₁ gm = true
            · obtain ⟨hv', hnn⟩ := hres a hamem gm ha2
              rw [hinp] at hv'
              rw [validate_some_eq] at hv'
              simp only [Bool.not_true, Bool.false_or] at hv'
              cases gm with
              | nonNull u => exact absurd hnn (by simp [isNonNullV])
              | scalar k => simp [isObjectTypeV] at hobj
              | listOf u => simp [isObjectTypeV] at hobj
              | named r =>
                have hni := isObject_isInput_false st₁ (GVal.named r) hobj
                dsimp only at hv'
                rw [hni] at hv'
                exact Bool.noConfusion hv'
            · rw [if_neg hobj] at hfa
              exact Option.noConfusion hfa
        · have hfalse : cfg.asInput = false := by
            cases h : cfg.asInput
            · rfl
            · exact absurd h hinp
          rw [hfalse]
          exact validate_false_any _ _
  case case23 =>
    intro elem st nullable st₁ heqbig ihbig hG
    clear heqbig
    cases elem with
    | unionT eargs =>
      obtain ⟨ih1, ih2, ih3⟩ := ihbig
      rw [map_to_list]
      by_cases hc : ptlContains eargs PyType.noneT = true
      · by_cases hcount : countNonNone eargs = 1
        · rw [if_pos hc, if_pos hcount]
          rcases hfn : mapFirstNonNone cfg eargs st with ⟨sub, stx⟩
          obtain ⟨ha, hr, hg', hres⟩ := ih1 hG
          rw [hfn] at ha hr hg' hres
          exact listFinish cfg sub true ha
            (hr.mono (fun n hn => by simp only [PyType.unionT.sizeOf_spec]; omega))
            hg' hres
        · rw [if_pos hc, if_neg hcount]
          rcases hm : map cfg (PyType.unionT eargs) st with ⟨sub, stx⟩
          obtain ⟨ha, hr, hg', hres⟩ := ih2 hG
          rw [hm] at ha hr hg' hres
          exact listFinish cfg sub true ha hr hg' hres
      · rw [if_neg hc]
        rcases hm : map cfg (PyType.unionT eargs) st with ⟨sub, stx⟩
        obtain ⟨ha, hr, hg', hres⟩ := ih3 hG
        rw [hm] at ha hr hg' hres
        exact listFinish cfg sub false ha hr hg' hres
    | noneT =>
      rw [map_to_list]
      rcases hm : map cfg PyType.noneT st with ⟨sub, stx⟩
      obtain ⟨ha, hr, hg', hres⟩ := ihbig hG
      rw [hm] at ha hr hg' hres
      exact listFinish cfg sub false ha hr hg' hres
      intro eargs heq
      exact PyType.noConfusion heq
    | scalarC c =>
      rw [map_to_list]
      rcases hm : map cfg (PyType.scalarC c) st with ⟨sub, stx⟩
      obtain ⟨ha, hr, hg', hres⟩ := ihbig hG
      rw [hm] at ha hr hg' hres
      exact listFinish cfg sub false ha hr hg' hres
      intro eargs heq
      exact PyType.noConfusion heq
    | jsonT =>
      rw [map_to_list]
      rcases hm : map cfg PyType.jsonT st with ⟨sub, stx⟩
      obtain ⟨ha, hr, hg', hres⟩ := ihbig hG
      rw [hm] at ha hr hg' hres
      exact listFinish cfg sub false ha hr hg' hres
      intro eargs heq
      exact PyType.noConfusion heq
    | enumC n vs =>
      rw [map_to_list]
      rcases hm : map cfg (PyType.enumC n vs) st with ⟨sub, stx⟩
      obtain ⟨ha, hr, hg', hres⟩ := ihbig hG
      rw [hm] at ha hr hg' hres
      exact listFinish cfg sub false ha hr hg' hres
      intro eargs heq
      exact PyType.noConfusion heq
    | unionFlag =>
      rw [map_to_list]
      rcases hm : map cfg PyType.unionFlag st with ⟨sub, stx⟩
      obtain ⟨ha, hr, hg', hres⟩ := ihbig hG
      rw [hm] at ha hr hg' hres
      exact listFinish cfg sub false ha hr hg' hres
      intro eargs heq
      exact PyType.noConfusion heq
    | contextC =>
      rw [map_to_list]
      rcases hm : map cfg PyType.contextC st with ⟨sub, stx⟩
      obtain ⟨ha, hr, hg', hres⟩ := ihbig hG
      rw [hm] at ha hr hg' hres
      exact listFinish cfg sub false ha hr hg' hres
      intro eargs heq
      exact PyType.noConfusion heq
    | classC n a m h subs =>
      rw [map_to_list]
      rcases hm : map cfg (PyType.classC n a m h subs) st with ⟨sub, stx⟩
      obtain ⟨ha, hr, hg', hres⟩ := ihbig hG
      rw [hm] at ha hr hg' hres
      exact listFinish cfg sub false ha hr hg' hres
      intro eargs heq
      exact PyType.noConfusion heq
    | listT e =>
      rw [map_to_list]
      rcases hm : map cfg (PyType.listT e) st with ⟨sub, stx⟩
      obtain ⟨ha, hr, hg', hres⟩ := ihbig hG
      rw [hm] at ha hr hg' hres
      exact listFinish cfg sub false ha hr hg' hres
      intro eargs heq
      exact PyType.noConfusion heq
  case case24 =>
    intro elem st v nullable st₁ heqbig ihbig hG
    clear heqbig
    cases elem with
    | unionT eargs =>
      obtain ⟨ih1, ih2, ih3⟩ := ihbig
      rw [map_to_list]
      by_cases hc : ptlContains eargs PyType.noneT = true
      · by_cases hcount : countNonNone eargs = 1
        · rw [if_pos hc, if_pos hcount]
          rcases hfn : mapFirstNonNone cfg eargs st with ⟨sub, stx⟩
          obtain ⟨ha, hr, hg', hres⟩ := ih1 hG
          rw [hfn] at ha hr hg' hres
          exact listFinish cfg sub true ha
            (hr.mono (fun n hn => by simp only [PyType.unionT.sizeOf_spec]; omega))
            hg' hres
        · rw [if_pos hc, if_neg hcount]
          rcases hm : map cfg (PyType.unionT eargs) st with ⟨sub, stx⟩
          obtain ⟨ha, hr, hg', hres⟩ := ih2 hG
          rw [hm] at ha hr hg' hres
          exact listFinish cfg sub true ha hr hg' hres
      · rw [if_neg hc]
        rcases hm : map cfg (PyType.unionT eargs) st with ⟨sub, stx⟩
        obtain ⟨ha, hr, hg', hres⟩ := ih3 hG
        rw [hm] at ha hr hg' hres
        exact listFinish cfg sub false ha hr hg' hres
    | noneT =>
      rw [map_to_list]
      rcases hm : map cfg PyType.noneT st with ⟨sub, stx⟩
      obtain ⟨ha, hr, hg', hres⟩ := ihbig hG
      rw [hm] at ha hr hg' hres
      exact listFinish cfg sub false ha hr hg' hres
      intro eargs heq
      exact PyType.noConfusion heq
    | scalarC c =>
      rw [map_to_list]
      rcases hm : map cfg (PyType.scalarC c) st with ⟨sub, stx⟩
      obtain ⟨ha, hr, hg', hres⟩ := ihbig hG
      rw [hm] at ha hr hg' hres
      exact listFinish cfg sub false ha hr hg' hres
      intro eargs heq
      exact PyType.noConfusion heq
    | jsonT =>
      rw [map_to_list]
      rcases hm : map cfg PyType.jsonT st with ⟨sub, stx⟩
      obtain ⟨ha, hr, hg', hres⟩ := ihbig hG
      rw [hm] at ha hr hg' hres
      exact listFinish cfg sub false ha hr hg' hres
      intro eargs heq
      exact PyType.noConfusion heq
    | enumC n vs =>
      rw [map_to_list]
      rcases hm : map cfg (PyType.enumC n vs) st with ⟨sub, stx⟩
      obtain ⟨ha, hr, hg', hres⟩ := ihbig hG
      rw [hm] at ha hr hg' hres
      exact listFinish cfg sub false ha hr hg' hres
      intro eargs heq
      exact PyType.noConfusion heq
    | unionFlag =>
      rw [map_to_list]
      rcases hm : map cfg PyType.unionFlag st with ⟨sub, stx⟩
      obtain ⟨ha, hr, hg', hres⟩ := ihbig hG
      rw [hm] at ha hr hg' hres
      exact listFinish cfg sub false ha hr hg' hres
      intro eargs heq
      exact PyType.noConfusion heq
    | contextC =>
      rw [map_to_list]
      rcases hm : map cfg PyType.contextC st with ⟨sub, stx⟩
      obtain ⟨ha, hr, hg', hres⟩ := ihbig hG
      rw [hm] at ha hr hg' hres
      exact listFinish cfg sub false ha hr hg' hres
      intro eargs heq
      exact PyType.noConfusion heq
    | classC n a m h subs =>
      rw [map_to_list]
      rcases hm : map cfg (PyType.classC n a m h subs) st with ⟨sub, stx⟩
      obtain ⟨ha, hr, hg', hres⟩ := ihbig hG
      rw [hm] at ha hr hg' hres
      exact listFinish cfg sub false ha hr hg' hres
      intro eargs heq
      exact PyType.noConfusion heq
    | listT e =>
      rw [map_to_list]
      rcases hm : map cfg (PyType.listT e) st with ⟨sub, stx⟩
      obtain ⟨ha, hr, hg', hres⟩ := ihbig hG
      rw [hm] at ha hr hg' hres
      exact listFinish cfg sub false ha hr hg' hres
      intro eargs heq
      exact PyType.noConfusion heq

/-! ## Idempotence of `map` (claim C1) -/

/-- a lookup at the head of a cons registry hits. -/
theorem lookup_cons_self {β : Type} (k : RegKey) (v : β)
    (rest : List (RegKey × β)) : ((k, v) :: rest).lookup k = some v := by
  simp [List.lookup]

/-- the empty mapper state is well-formed. -/
theorem goodSt_empty : GoodSt {} := by
  intro t inp mtb suf g h
  exact Option.noConfusion h

/-- a `map_to_interface` value never validates for an input-flavored mapper:
the freshly allocated interface object is not an input type. -/
theorem map_to_interface_invalid_input (cfg : MapperCfg) (clsName : String)
    (mro : List (List (String × Member))) (hook : List (String × Ann))
    (subs : PyTypeList) (st : MState) (hin : cfg.asInput = true) :
    ∀ g, (map_to_interface cfg clsName mro hook subs st).1 = some g →
      validate (map_to_interface cfg clsName mro hook subs st).2 cfg.asInput
        (some g) = false := by
  intro g hg
  rw [map_to_interface] at hg ⊢
  revert hg
  rcases hme : mapEach cfg (fun sub => is_abstract sub cfg.schema) subs st
    with ⟨ps, st₁⟩
  intro hg
  dsimp only [allocObj] at hg ⊢
  obtain rfl := Option.some.inj hg
  rw [hin]
  exact validate_named_noninput_false _ _ _ (arenaGet_of_concat st₁ _ rfl)
    ⟨fun h => GKind.noConfusion h, fun h => GKind.noConfusion h⟩

/-- C1: `map` is idempotent for a fixed mapper flavor: calling it twice on the
same descriptor from a well-formed state returns the same result both times,
and whenever the first call returns a GraphQL type object, the post-state
forward registry holds exactly that object under the structural key
(descriptor, input-flag, mutable-flag, suffix), so the second call is answered
from the registry with the identical object and an unchanged state. -/
theorem map_idempotent (cfg : MapperCfg) (t : PyType) (st : MState)
    (hG : GoodSt st) :
    (map cfg t ((map cfg t st).2)).1 = (map cfg t st).1 ∧
    (∀ g, (map cfg t st).1 = some g →
      ((map cfg t st).2).registry.lookup (genericKey cfg t) = some (some g) ∧
      map cfg t ((map cfg t st).2) = (some g, (map cfg t st).2)) := by
  by_cases hne : t = PyType.noneT
  · subst hne
    have h1 : map cfg PyType.noneT st = ((none : Option GVal), st) := by
      rw [map]; simp
    rw [h1]
    refine ⟨?_, fun g hg => Option.noConfusion hg⟩
    show (map cfg PyType.noneT st).1 = none
    rw [h1]
  · cases hl : st.registry.lookup (genericKey cfg t) with
    | some v =>
      have h1 : map cfg t st = (v, st) := by
        rw [map]
        simp only [if_neg hne, hl]
      rw [h1]
      refine ⟨?_, ?_⟩
      · show (map cfg t st).1 = v
        rw [h1]
      · intro g hg
        have hv : v = some g := hg
        subst hv
        refine ⟨by rw [hl], ?_⟩
        show map cfg t st = (some g, st)
        rw [h1]
    | none =>
      rcases hm : _map cfg t st with ⟨v0, stx⟩
      cases v0 with
      | none =>
        have h1 : map cfg t st =
            ((none : Option GVal),
              { stx with registry := (genericKey cfg t, none) :: stx.registry }) := by
          rw [map]
          simp only [if_neg hne, hl, hm]
        rw [h1]
        refine ⟨?_, fun g hg => Option.noConfusion hg⟩
        show (map cfg t
          { stx with registry := (genericKey cfg t, none) :: stx.registry }).1 = none
        rw [map]
        simp only [if_neg hne]
        rw [lookup_cons_self]
      | some g0 =>
        by_cases hv : validate stx cfg.asInput (some g0) = true
        · have h1 : map cfg t st =
              (some g0,
                { stx with registry := (genericKey cfg t, some g0) :: stx.registry,
                           revReg := (g0, t) :: stx.revReg }) := by
            rw [map]
            simp only [if_neg hne, hl, hm, if_pos hv]
          rw [h1]
          have hlk : ({ stx with
              registry := (genericKey cfg t, some g0) :: stx.registry,
              revReg := (g0, t) :: stx.revReg } : MState).registry.lookup
                (genericKey cfg t) = some (some g0) := by
            exact lookup_cons_self _ _ _
          have h2 : map cfg t
              { stx with registry := (genericKey cfg t, some g0) :: stx.registry,
                         revReg := (g0, t) :: stx.revReg } =
              (some g0,
                { stx with registry := (genericKey cfg t, some g0) :: stx.registry,
                           revReg := (g0, t) :: stx.revReg }) := by
            rw [map]
            simp only [if_neg hne, hlk]
          refine ⟨by rw [h2], ?_⟩
          intro g hg
          have hgg : some g0 = some g := hg
          obtain rfl := Option.some.inj hgg
          exact ⟨hlk, h2⟩
        · have h1 : map cfg t st = ((none : Option GVal), stx) := by
            rw [map]
            simp only [if_neg hne, hl, hm, if_neg hv]
          have hmi := (map_invariants cfg).2.1 t st hG
          rw [hm] at hmi
          obtain ⟨ha, hr, hGx, hraw⟩ := hmi
          have hlk2 : stx.registry.lookup (genericKey cfg t) = none := by
            have hq := RegOkEnts.lookup_lt hr
            rw [hl] at hq
            exact hq
          obtain ⟨hnn0, hval0⟩ := hraw g0 rfl
          rcases hval0 with hval0 | ⟨hin, hif⟩
          · exact absurd hval0 hv
          · obtain ⟨n, a, m, hk, subs, rfl⟩ :
                ∃ n a m hk subs, t = PyType.classC n a m hk subs := by
              cases t with
              | classC n a m hk subs => exact ⟨n, a, m, hk, subs, rfl⟩
              | noneT => simp [is_interface] at hif
              | scalarC c => simp [is_interface] at hif
              | jsonT => simp [is_interface] at hif
              | enumC nm vs => simp [is_interface] at hif
              | unionFlag => simp [is_interface] at hif
              | contextC => simp [is_interface] at hif
              | unionT args => simp [is_interface] at hif
              | listT e => simp [is_interface] at hif
            have h2 : (map cfg (PyType.classC n a m hk subs) stx).1 = none := by
              rw [map]
              simp only [if_neg hne, hlk2]
              rw [_map]
              rw [if_pos hif]
              rcases hm2 : map_to_interface cfg n m hk subs stx with ⟨v1, sty⟩
              cases v1 with
              | none => rfl
              | some g1 =>
                have hvf := map_to_interface_invalid_input cfg n m hk subs stx
                  hin g1 (by rw [hm2])
                rw [hm2] at hvf
                have hvf2 : ¬ validate sty cfg.asInput (some g1) = true := by
                  rw [hvf]; exact Bool.noConfusion
                simp only [if_neg hvf2]
            rw [h1]
            refine ⟨?_, fun g hg => Option.noConfusion hg⟩
            exact h2

/-- Witness for C1 at the default mapper flavor, the `int` scalar class and
the empty state. -/
theorem map_idempotent_witness :
    GoodSt {} ∧
    ((map {} (PyType.scalarC ScalarClass.intC)
        ((map {} (PyType.scalarC ScalarClass.intC) {}).2)).1 =
      (map {} (PyType.scalarC ScalarClass.intC) {}).1 ∧
    (∀ g, (map {} (PyType.scalarC ScalarClass.intC) {}).1 = some g →
      ((map {} (PyType.scalarC ScalarClass.intC) {}).2).registry.lookup
          (genericKey {} (PyType.scalarC ScalarClass.intC)) = some (some g) ∧
      map {} (PyType.scalarC ScalarClass.intC)
          ((map {} (PyType.scalarC ScalarClass.intC) {}).2) =
        (some g, (map {} (PyType.scalarC ScalarClass.intC) {}).2))) :=
  ⟨goodSt_empty, map_idempotent {} (PyType.scalarC ScalarClass.intC) {} goodSt_empty⟩

/-! ## Claim C7: declared-Optional return nullability -/

/-- membership in an appended type list splits over the parts. -/
theorem ptlContains_append : ∀ (a b : PyTypeList) (t : PyType),
    ptlContains (ptlAppend a b) t = (ptlContains a t || ptlContains b t)
  | .nil, b, t => by simp [ptlAppend, ptlContains]
  | .cons hd tl, b, t => by
    simp [ptlAppend, ptlContains, ptlContains_append tl b t, Bool.or_assoc]

/-- the pseudo-union wrapper always produces a union descriptor. -/
theorem addUnionFlag_is_union (t : PyType) :
    ∃ args, addUnionFlag t = PyType.unionT args := by
  cases t <;> exact ⟨_, rfl⟩

/-- the declared shape behind the single-type-union marker. -/
theorem single_union_flag_shape (f : PyFunc)
    (h : has_single_type_union_return f = true) :
    ∃ args, f.ret = some (PyType.unionT args) ∧
      ptlContains args PyType.noneT = true := by
  unfold has_single_type_union_return at h
  cases hr : f.ret with
  | none => rw [hr] at h; simp at h
  | some rt =>
    rw [hr] at h
    cases rt with
    | unionT args =>
      simp at h
      exact ⟨args, rfl, h.2.1⟩
    | noneT => simp at h
    | scalarC c => simp at h
    | jsonT => simp at h
    | enumC n vs => simp at h
    | unionFlag => simp at h
    | contextC => simp at h
    | classC n a m hk subs => simp at h
    | listT e => simp at h

/-- a non-union declared return type is not declared nullable. -/
theorem retDeclaredNullable_of_not_union (f : PyFunc) (rt : PyType)
    (hr : f.ret = some rt) (hnu : ∀ args, rt ≠ PyType.unionT args) :
    retDeclaredNullable f = false := by
  unfold retDeclaredNullable
  rw [hr]
  cases rt with
  | unionT args => exact absurd rfl (hnu args)
  | noneT => rfl
  | scalarC c => rfl
  | jsonT => rfl
  | enumC n vs => rfl
  | unionFlag => rfl
  | contextC => rfl
  | classC n a m hk subs => rfl
  | listT e => rfl


/-- C7: a field built by `map_to_field` from a well-formed state has a
`GraphQLNonNull`-wrapped type exactly when the callable's declared return type
is not a union including the none-type: declared-Optional returns are not
non-null-wrapped, all other returns are. -/
theorem map_to_field_nullability (cfg : MapperCfg) (f : PyFunc)
    (name key : String) (st : MState) (hG : GoodSt st)
    (fld : GField) (st' : MState)
    (h : map_to_field cfg f name key st = Except.ok (some fld, st')) :
    isNonNullV fld.ftype = !retDeclaredNullable f := by
  rw [map_to_field] at h
  split at h
  · exact absurd h (by simp)
  · next rt heq1 =>
    split at h
    next rg st₁ heq2 =>
    split at h
    · next args =>
      dsimp only at h
      have hres := ((map_invariants cfg).1 (PyType.unionT args) st hG).2.2.2
      rw [heq2] at hres
      split at h
      · split at h <;> simp at h
      · next g =>
        obtain ⟨hv2, hnn⟩ := hres g rfl
        split at h
        · simp at h
        · next hval =>
          split at h
          · simp at h
          · next bargs st₂ heqb =>
            simp only [Except.ok.injEq, Prod.mk.injEq, Option.some.injEq] at h
            obtain ⟨rfl, rfl⟩ := h
            by_cases hflag : has_single_type_union_return f = true
            · obtain ⟨args0, hret0, hcont0⟩ := single_union_flag_shape f hflag
              rw [if_pos hflag, hret0] at heq1
              simp only [Option.map_some'] at heq1
              have hargs := Option.some.inj heq1
              unfold addUnionFlag at hargs
              injection hargs with hargs
              have hM : ptlContains args PyType.noneT = true := by
                rw [← hargs, ptlContains_append, hcont0]; rfl
              have hd : retDeclaredNullable f = true := by
                unfold retDeclaredNullable; rw [hret0]; exact hcont0
              rw [hd, hM]
              simpa using hnn
            · rw [if_neg hflag] at heq1
              have hd : retDeclaredNullable f =
                  ptlContains args PyType.noneT := by
                unfold retDeclaredNullable; rw [heq1]
              rw [hd]
              cases hc : ptlContains args PyType.noneT with
              | false => simp [isNonNullV]
              | true => simpa using hnn
    · next rtarm hnu =>
      dsimp only at h
      split at h
      · simp at h
      · next g =>
        split at h
        · simp at h
        · next hval =>
          split at h
          · simp at h
          · next bargs st₂ heqb =>
            simp only [Except.ok.injEq, Prod.mk.injEq, Option.some.injEq] at h
            obtain ⟨rfl, rfl⟩ := h
            have hd : retDeclaredNullable f = false := by
              by_cases hflag : has_single_type_union_return f = true
              · obtain ⟨args0, hret0, hcont0⟩ := single_union_flag_shape f hflag
                rw [if_pos hflag, hret0] at heq1
                simp only [Option.map_some'] at heq1
                have hx := Option.some.inj heq1
                obtain ⟨argsx, hax⟩ := addUnionFlag_is_union (PyType.unionT args0)
                rw [hax] at hx
                exact (hnu argsx hx.symm).elim
              · rw [if_neg hflag] at heq1
                exact retDeclaredNullable_of_not_union f _ heq1
                  (fun a ha => hnu a ha)
            rw [hd]
            simp [isNonNullV]

/-- Witness for C7: a field returning plain `int` maps successfully and its
GraphQL type is non-null-wrapped, matching its non-Optional declaration. -/
theorem map_to_field_nullability_witness :
    GoodSt {} ∧
    map_to_field {} { name := "f", ret := some (PyType.scalarC ScalarClass.intC) }
        "Root" "x" {} =
      Except.ok
        (some { ftype := GVal.nonNull (GVal.scalar ScalarKind.int), args := [],
                isMutable := false },
         { registry := [(RegKey.struct (PyType.scalarC ScalarClass.intC)
              false false "", some (GVal.scalar ScalarKind.int))],
           revReg := [(GVal.scalar ScalarKind.int,
              PyType.scalarC ScalarClass.intC)] }) ∧
    isNonNullV (GVal.nonNull (GVal.scalar ScalarKind.int)) =
      !retDeclaredNullable
        { name := "f", ret := some (PyType.scalarC ScalarClass.intC) } :=
  ⟨goodSt_empty,
   by
     simp [map_to_field, has_single_type_union_return, map, _map, map_to_scalar,
       scalarSubclass, buildArgs, validate, genericKey, List.lookup,
       get_graphql_type, is_graphql, isNonNullV],
   map_to_field_nullability {}
     { name := "f", ret := some (PyType.scalarC ScalarClass.intC) }
     "Root" "x" {} goodSt_empty
     { ftype := GVal.nonNull (GVal.scalar ScalarKind.int), args := [],
       isMutable := false }
     { registry := [(RegKey.struct (PyType.scalarC ScalarClass.intC)
          false false "", some (GVal.scalar ScalarKind.int))],
       revReg := [(GVal.scalar ScalarKind.int,
          PyType.scalarC ScalarClass.intC)] }
     (by
       simp [map_to_field, has_single_type_union_return, map, _map,
         map_to_scalar, scalarSubclass, buildArgs, validate, genericKey,
         List.lookup, get_graphql_type, is_graphql, isNonNullV])⟩

/-! ## Claim C10: `map_to_union` and non-object members -/

/-- C10 counterexample: for the union `Optional[int]` — a union none of whose
non-none members maps to a `GraphQLObjectType` — `map_to_union` does not
return `None`: the single-concrete-member-plus-none shortcut returns the
member's own (scalar) mapping directly. -/
theorem map_to_union_scalar_shortcut_counterexample :
    (map_to_union {} (PyTypeList.cons (PyType.scalarC ScalarClass.intC)
        (PyTypeList.cons PyType.noneT PyTypeList.nil)) {}).1 =
      some (GVal.scalar ScalarKind.int) ∧
    isObjectTypeV
      (map_to_union {} (PyTypeList.cons (PyType.scalarC ScalarClass.intC)
        (PyTypeList.cons PyType.noneT PyTypeList.nil)) {}).2
      (GVal.scalar ScalarKind.int) = false := by
  constructor
  · simp [map_to_union, mapEach, map, _map, map_to_scalar, scalarSubclass,
      validate, genericKey, List.lookup, ptlContains]
  · simp [isObjectTypeV]

/-- C10 amended: outside the single-concrete-member-plus-none shortcut,
`map_to_union` returns `None` whenever no mapped member is an object type, and
any union it does build contains exactly members that mapped to object
types. -/
theorem map_to_union_amended (cfg : MapperCfg) (args : PyTypeList) (st : MState)
    (pairs : List (PyType × Option GVal)) (st₁ : MState)
    (hme : mapEach cfg (fun a => a = PyType.unionFlag || a = PyType.noneT) args st
      = (pairs, st₁))
    (hns : ¬(pairs.length = 1 ∧ ptlContains args PyType.noneT = true)) :
    ((∀ p ∈ pairs, ∀ g, p.2 = some g → isObjectTypeV st₁ g = false) →
      map_to_union cfg args st = (none, st₁)) ∧
    (∀ g, (map_to_union cfg args st).1 = some g →
      ∃ r o, g = GVal.named r ∧
        arenaGet (map_to_union cfg args st).2 r = some o ∧
        o.kind = GKind.union ∧
        (∀ m ∈ o.unionMembers, isObjectTypeV st₁ m = true)) := by
  rw [map_to_union, hme]
  dsimp only
  have hcond : ¬((decide (pairs.length = 1) && ptlContains args PyType.noneT) = true) := by
    simpa using hns
  rw [if_neg hcond]
  constructor
  · intro hall
    have hnilv : pairs.filterMap
        (fun p => match p.2 with
          | some g => if isObjectTypeV st₁ g then some g else none
          | none => none) = [] := by
      rw [List.filterMap_eq_nil_iff]
      intro p hp
      cases hp2 : p.2 with
      | none => rfl
      | some g =>
        have hzero := hall p hp g hp2
        simp [hzero]
    rw [hnilv]
    simp
  · intro g hg
    by_cases hnil : pairs.filterMap
        (fun p => match p.2 with
          | some g => if isObjectTypeV st₁ g then some g else none
          | none => none) = []
    · rw [hnil] at hg
      simp at hg
    · rw [if_neg hnil] at hg ⊢
      dsimp only [allocObj] at hg ⊢
      obtain rfl := Option.some.inj hg
      refine ⟨st₁.arena.length, _, rfl, arenaGet_of_concat st₁ _ rfl, rfl, ?_⟩
      intro m hm
      obtain ⟨p, hp, hfp⟩ := List.mem_filterMap.mp hm
      cases hp2 : p.2 with
      | none =>
        simp only [hp2] at hfp
        exact Option.noConfusion hfp
      | some g' =>
        simp only [hp2] at hfp
        by_cases hobj : isObjectTypeV st₁ g' = true
        · rw [if_pos hobj] at hfp
          obtain rfl := Option.some.inj hfp
          exact hobj
        · rw [if_neg hobj] at hfp
          exact Option.noConfusion hfp

/-- Witness for the amended C10 theorem: the one-member union over `int`
(no none-type, so the shortcut is off) maps no member to an object type and
`map_to_union` returns `None`. -/
theorem map_to_union_amended_witness :
    (mapEach {} (fun a => a = PyType.unionFlag || a = PyType.noneT)
        (PyTypeList.cons (PyType.scalarC ScalarClass.intC) PyTypeList.nil) {} =
      ([(PyType.scalarC ScalarClass.intC, some (GVal.scalar ScalarKind.int))],
        { registry := [(RegKey.struct (PyType.scalarC ScalarClass.intC)
             false false "", some (GVal.scalar ScalarKind.int))],
          revReg := [(GVal.scalar ScalarKind.int,
             PyType.scalarC ScalarClass.intC)] })) ∧
    (¬(([(PyType.scalarC ScalarClass.intC,
          some (GVal.scalar ScalarKind.int))] :
            List (PyType × Option GVal)).length = 1 ∧
        ptlContains (PyTypeList.cons (PyType.scalarC ScalarClass.intC)
          PyTypeList.nil) PyType.noneT = true)) ∧
    (((∀ p ∈ ([(PyType.scalarC ScalarClass.intC,
          some (GVal.scalar ScalarKind.int))] :
            List (PyType × Option GVal)), ∀ g, p.2 = some g →
        isObjectTypeV
          { registry := [(RegKey.struct (PyType.scalarC ScalarClass.intC)
               false false "", some (GVal.scalar ScalarKind.int))],
            revReg := [(GVal.scalar ScalarKind.int,
               PyType.scalarC ScalarClass.intC)] } g = false) →
      map_to_union {}
          (PyTypeList.cons (PyType.scalarC ScalarClass.intC) PyTypeList.nil) {} =
        (none,
          { registry := [(RegKey.struct (PyType.scalarC ScalarClass.intC)
               false false "", some (GVal.scalar ScalarKind.int))],
            revReg := [(GVal.scalar ScalarKind.int,
               PyType.scalarC ScalarClass.intC)] })) ∧
    (∀ g, (map_to_union {}
          (PyTypeList.cons (PyType.scalarC ScalarClass.intC) PyTypeList.nil)
          {}).1 = some g →
      ∃ r o, g = GVal.named r ∧
        arenaGet (map_to_union {}
          (PyTypeList.cons (PyType.scalarC ScalarClass.intC) PyTypeList.nil)
          {}).2 r = some o ∧
        o.kind = GKind.union ∧
        (∀ m ∈ o.unionMembers,
          isObjectTypeV
            { registry := [(RegKey.struct (PyType.scalarC ScalarClass.intC)
                 false false "", some (GVal.scalar ScalarKind.int))],
              revReg := [(GVal.scalar ScalarKind.int,
                 PyType.scalarC ScalarClass.intC)] } m = true))) :=
  ⟨by
     simp [mapEach, map, _map, map_to_scalar, scalarSubclass, validate,
       genericKey, List.lookup],
   by decide,
   map_to_union_amended {}
     (PyTypeList.cons (PyType.scalarC ScalarClass.intC) PyTypeList.nil) {}
     [(PyType.scalarC ScalarClass.intC, some (GVal.scalar ScalarKind.int))]
     { registry := [(RegKey.struct (PyType.scalarC ScalarClass.intC)
          false false "", some (GVal.scalar ScalarKind.int))],
       revReg := [(GVal.scalar ScalarKind.int,
          PyType.scalarC ScalarClass.intC)] }
     (by
       simp [mapEach, map, _map, map_to_scalar, scalarSubclass, validate,
         genericKey, List.lookup])
     (by decide)⟩

/-! ## Claim C4: placeholder query field under total filtering -/

/-- C4: with at least one filter policy configured, when reduction leaves the
root query object with no fields, `build_schema` still produces a valid query
type: a fresh object that keeps the original root name and carries the single
diagnostic `"_schema"` string field, so the query root has a field again. -/
theorem build_schema_query_placeholder (g : RGraph)
    (registry : List (RegKey × Option RTy)) (root : Nat)
    (filters : List RFilter) (meta : RMeta) (fuel : Nat)
    (g₁ : RGraph) (reg₁ : List (RegKey × Option RTy))
    (hf : filters ≠ [])
    (hred : reduce_query g registry root filters meta fuel = Except.ok (g₁, reg₁))
    (hnof : queryHasFields g₁ root = false) :
    ∃ g₂ r info,
      build_schema_query g registry root filters meta fuel = Except.ok (g₂, r) ∧
      tinfo g₂ r = some info ∧
      info.name = ((tinfo g₁ root).map (fun i => i.name)).getD "" ∧
      info.kind = RKind.object ∧
      info.fieldsRes =
        Except.ok [("_schema", { ftype := RTy.scalarT ScalarKind.string })] ∧
      queryHasFields g₂ r = true := by
  have hcond : (!filters.isEmpty && !queryHasFields g₁ root) = true := by
    rw [hnof]
    cases filters with
    | nil => exact absurd rfl hf
    | cons a l => rfl
  have ht : tinfo (g₁ ++ [placeholderInfo g₁ root]) g₁.length =
      some (placeholderInfo g₁ root) := by
    show ((g₁ ++ [placeholderInfo g₁ root]).get? g₁.length) = _
    rw [List.get?_eq_getElem?]
    exact List.getElem?_concat_length g₁ _
  refine ⟨g₁ ++ [placeholderInfo g₁ root], g₁.length, placeholderInfo g₁ root,
    ?_, ht, rfl, rfl, rfl, ?_⟩
  · unfold build_schema_query
    simp only [hred]
    rw [if_pos hcond]
    rfl
  · unfold queryHasFields
    rw [ht]
    rfl

/-- Witness for C4: a root whose only field is removed by an always-remove
filter still yields a placeholder query type with the root's name and one
`"_schema"` string field. -/
theorem build_schema_query_placeholder_witness :
    (([fun _ _ => true] : List RFilter) ≠ []) ∧
    reduce_query
      [{ name := "Root", kind := RKind.object,
         fieldsRes := Except.ok [("secret", { ftype := RTy.scalarT ScalarKind.string })] }]
      [] 0 [fun _ _ => true] [] 1 =
      Except.ok
        ([{ name := "Root", kind := RKind.object, fieldsRes := Except.ok [] }], []) ∧
    queryHasFields
      [{ name := "Root", kind := RKind.object, fieldsRes := Except.ok [] }] 0 = false ∧
    (∃ g₂ r info,
      build_schema_query
        [{ name := "Root", kind := RKind.object,
           fieldsRes := Except.ok [("secret", { ftype := RTy.scalarT ScalarKind.string })] }]
        [] 0 [fun _ _ => true] [] 1 = Except.ok (g₂, r) ∧
      tinfo g₂ r = some info ∧
      info.name =
        ((tinfo [{ name := "Root", kind := RKind.object,
                   fieldsRes := Except.ok [] }] 0).map (fun i => i.name)).getD "" ∧
      info.kind = RKind.object ∧
      info.fieldsRes =
        Except.ok [("_schema", { ftype := RTy.scalarT ScalarKind.string })] ∧
      queryHasFields g₂ r = true) :=
  ⟨by simp,
   by
     simp [reduce_query, invalid, invalidFieldsLoop, markBrokenInterfaces,
       interfaceFieldKeys, tinfo, insertPair, insertNat, delField, updateAt,
       assertFields, List.lookup, List.mapIdx, List.mapIdx.go, unwrapR,
       List.foldlM, List.filter, Option.isSome],
   rfl,
   build_schema_query_placeholder
     [{ name := "Root", kind := RKind.object,
        fieldsRes := Except.ok [("secret", { ftype := RTy.scalarT ScalarKind.string })] }]
     [] 0 [fun _ _ => true] [] 1
     [{ name := "Root", kind := RKind.object, fieldsRes := Except.ok [] }] []
     (by simp)
     (by
       simp [reduce_query, invalid, invalidFieldsLoop, markBrokenInterfaces,
         interfaceFieldKeys, tinfo, insertPair, insertNat, delField, updateAt,
         assertFields, List.lookup, List.mapIdx, List.mapIdx.go, unwrapR,
         List.foldlM, List.filter, Option.isSome])
     rfl⟩

/-! ## Claim C2: the mutation rewrite loop and the name-keyed lookup -/

/-- a name-keyed lookup misses in a registry whose keys are all structural. -/
theorem lookup_name_none (registry : List (RegKey × Option RTy)) (s : String)
    (hk : ∀ p ∈ registry, ∃ t i m suf, p.1 = RegKey.struct t i m suf) :
    registry.lookup (RegKey.name s) = none := by
  induction registry with
  | nil => rfl
  | cons p rest ih =>
    obtain ⟨t, i, m, suf, hp⟩ := hk p (by simp)
    simp only [List.lookup]
    have hne : (RegKey.name s == p.1) = false := by
      rw [hp]
      simp
    rw [hne]
    exact ih (fun q hq => hk q (by simp [hq]))

theorem tinfo_updateAt_ne (g : RGraph) (r r' : Nat) (f : RTypeInfo → RTypeInfo)
    (h : r' ≠ r) : tinfo (updateAt g r f) r' = tinfo g r' := by
  unfold tinfo updateAt
  rw [List.get?_eq_getElem?, List.get?_eq_getElem?, List.getElem?_mapIdx]
  cases hx : g[r']? with
  | none => rfl
  | some info => simp [h]

theorem tinfo_updateAt_self (g : RGraph) (r : Nat) (f : RTypeInfo → RTypeInfo)
    (info : RTypeInfo) (h : tinfo g r = some info) :
    tinfo (updateAt g r f) r = some (f info) := by
  unfold tinfo at h
  unfold tinfo updateAt
  rw [List.get?_eq_getElem?] at h
  rw [List.get?_eq_getElem?, List.getElem?_mapIdx, h]
  simp

/-- with a registry whose keys are all structural — which is all
`GraphQLTypeMapper.map` ever creates — one step of the rewrite loop of
`reduce_mutation` changes nothing: the name-keyed query lookup can never
hit. -/
theorem rewriteFieldStep_struct_noop (registry : List (RegKey × Option RTy))
    (meta : RMeta) (suffix : String) (mutTypes : List RTy) (g : RGraph)
    (tref : Nat) (key : String)
    (hk : ∀ p ∈ registry, ∃ t i m suf, p.1 = RegKey.struct t i m suf) :
    rewriteFieldStep registry meta suffix mutTypes g tref key = g := by
  unfold rewriteFieldStep
  split
  · rfl
  next info =>
    split
    · rfl
    next flds =>
      split
      · rfl
      next fld =>
        dsimp only
        split
        · rfl
        · split
          · rfl
          · rw [lookup_name_none registry _ hk]

/-- the whole rewrite loop is a no-op over a structurally keyed registry. -/
theorem rewrite_fold_noop (registry : List (RegKey × Option RTy)) (meta : RMeta)
    (suffix : String)
    (hk : ∀ p ∈ registry, ∃ t i m suf, p.1 = RegKey.struct t i m suf) :
    ∀ (l : List (Nat × String × RField)) (mt : List RTy) (g : RGraph),
      l.foldl (fun gg v => rewriteFieldStep registry meta suffix mt gg v.1 v.2.1) g
        = g := by
  intro l mt
  induction l with
  | nil => intro g; rfl
  | cons v rest ih =>
    intro g
    simp only [List.foldl_cons]
    rw [rewriteFieldStep_struct_noop registry meta suffix mt g v.1 v.2.1 hk]
    exact ih g

/-- C2 amended: over a registry all of whose keys are structural — the only
kind `GraphQLTypeMapper.map` ever registers — `reduce_mutation` rewrites no
field type at all: the name-keyed query-registry lookup of its rewrite loop
never hits, every type other than the root is left untouched, and the root is
only pruned (fields filtered, surviving types verbatim). -/
theorem reduce_mutation_struct_registry (g : RGraph)
    (registry : List (RegKey × Option RTy)) (meta : RMeta) (suffix : String)
    (root fuel : Nat)
    (hk : ∀ p ∈ registry, ∃ t i m suf, p.1 = RegKey.struct t i m suf) :
    (∀ r, r ≠ root →
      tinfo (reduce_mutation g registry meta suffix root fuel) r = tinfo g r) ∧
    (∀ info flds, tinfo g root = some info → info.fieldsRes = Except.ok flds →
      tinfo (reduce_mutation g registry meta suffix root fuel) root =
        some { info with fieldsRes := Except.ok (flds.filter
          (fun kf => kf.1 ∈ interfaceFieldKeys g info.interfaces ||
            kf.2.isMutable || has_mutable g kf.2.ftype)) }) := by
  unfold reduce_mutation
  dsimp only
  rw [rewrite_fold_noop registry meta suffix hk _ _ g]
  constructor
  · intro r hr
    cases ht : tinfo g root with
    | none => simp only [ht]
    | some info =>
      cases hf2 : info.fieldsRes with
      | error e => simp only [ht, hf2]
      | ok flds =>
        simp only [ht, hf2]
        exact tinfo_updateAt_ne g root r _ hr
  · intro info flds ht hf2
    simp only [ht, hf2]
    exact tinfo_updateAt_self g root _ info ht

/-- C2 counterexample: a plain (role `"field"`), unflagged mutation field
`item` on `RootMutable` whose current type `Widget` is not suffix-named and
not in the mutable type set, while the registry holds the corresponding
query-flavor `Widget` object (a different type, reference 2) under its
structural key.  The claimed rewrite to the query-flavor type never happens:
after `reduce_mutation` the field still has its original type (reference 1),
because the rewrite loop looks the stripped name up with a name-shaped key in
a registry keyed only by structural-hash keys. -/
theorem reduce_mutation_rewrite_counterexample :
    fieldTypeAt
      (reduce_mutation
        [{ name := "RootMutable", kind := RKind.object,
           fieldsRes := Except.ok [("item", { ftype := RTy.named 1 })] },
         { name := "Widget", kind := RKind.object,
           fieldsRes := Except.ok
             [("x", { ftype := RTy.scalarT ScalarKind.int, isMutable := true })] },
         { name := "Widget", kind := RKind.object,
           fieldsRes := Except.ok
             [("x", { ftype := RTy.scalarT ScalarKind.int })] }]
        [(RegKey.struct (PyType.classC "Widget" {} [] [] PyTypeList.nil)
            false false "", some (RTy.named 2))]
        [] "Mutable" 0 3) 0 "item" = some (RTy.named 1) ∧
    List.lookup
      (RegKey.struct (PyType.classC "Widget" {} [] [] PyTypeList.nil)
        false false "")
      [(RegKey.struct (PyType.classC "Widget" {} [] [] PyTypeList.nil)
          false false "", some (RTy.named 2))] = some (some (RTy.named 2)) ∧
    rtyStr
      [{ name := "RootMutable", kind := RKind.object,
         fieldsRes := Except.ok [("item", { ftype := RTy.named 1 })] },
       { name := "Widget", kind := RKind.object,
         fieldsRes := Except.ok
           [("x", { ftype := RTy.scalarT ScalarKind.int, isMutable := true })] },
       { name := "Widget", kind := RKind.object,
         fieldsRes := Except.ok
           [("x", { ftype := RTy.scalarT ScalarKind.int })] }]
      (RTy.named 1) = "Widget" ∧
    strContains "Widget" "Mutable" = false ∧
    List.lookup ("RootMutable", to_snake_case "item") ([] : RMeta) = none ∧
    RTy.named 1 ≠ RTy.named 2 := by
  refine ⟨?_, by decide, by decide, by decide, rfl, by decide⟩
  have hk : ∀ p ∈ [(RegKey.struct (PyType.classC "Widget" {} [] [] PyTypeList.nil)
      false false "", some (RTy.named 2))], ∃ t i m suf,
      p.1 = RegKey.struct t i m suf := by
    intro p hp
    simp at hp
    subst hp
    exact ⟨_, _, _, _, rfl⟩
  unfold reduce_mutation
  dsimp only
  rw [rewrite_fold_noop _ _ _ hk _ _ _]
  simp [tinfo, updateAt, List.mapIdx, List.mapIdx.go, interfaceFieldKeys,
    has_mutable, unwrapR, fieldTypeAt, List.lookup, List.filter]

/-- Witness for the amended C2 theorem at a concrete mutation graph and a
structurally keyed registry. -/
theorem reduce_mutation_struct_registry_witness :
    (∀ p ∈ [(RegKey.struct (PyType.classC "Widget" {} [] [] PyTypeList.nil)
        false false "", some (RTy.named 2))], ∃ t i m suf,
        (p : RegKey × Option RTy).1 = RegKey.struct t i m suf) ∧
    ((∀ r, r ≠ 0 →
      tinfo (reduce_mutation
        [{ name := "RootMutable", kind := RKind.object,
           fieldsRes := Except.ok [("item", { ftype := RTy.named 1 })] }]
        [(RegKey.struct (PyType.classC "Widget" {} [] [] PyTypeList.nil)
            false false "", some (RTy.named 2))]
        [] "Mutable" 0 3) r =
      tinfo
        [{ name := "RootMutable", kind := RKind.object,
           fieldsRes := Except.ok [("item", { ftype := RTy.named 1 })] }] r) ∧
    (∀ info flds,
      tinfo
        [{ name := "RootMutable", kind := RKind.object,
           fieldsRes := Except.ok [("item", { ftype := RTy.named 1 })] }] 0 =
        some info →
      info.fieldsRes = Except.ok flds →
      tinfo (reduce_mutation
        [{ name := "RootMutable", kind := RKind.object,
           fieldsRes := Except.ok [("item", { ftype := RTy.named 1 })] }]
        [(RegKey.struct (PyType.classC "Widget" {} [] [] PyTypeList.nil)
            false false "", some (RTy.named 2))]
        [] "Mutable" 0 3) 0 =
        some { info with fieldsRes := Except.ok (flds.filter
          (fun kf => kf.1 ∈ interfaceFieldKeys
              [{ name := "RootMutable", kind := RKind.object,
                 fieldsRes := Except.ok [("item", { ftype := RTy.named 1 })] }]
              info.interfaces ||
            kf.2.isMutable || has_mutable
              [{ name := "RootMutable", kind := RKind.object,
                 fieldsRes := Except.ok [("item", { ftype := RTy.named 1 })] }]
              kf.2.ftype)) })) :=
  ⟨by
     intro p hp
     simp at hp
     subst hp
     exact ⟨_, _, _, _, rfl⟩,
   reduce_mutation_struct_registry
     [{ name := "RootMutable", kind := RKind.object,
        fieldsRes := Except.ok [("item", { ftype := RTy.named 1 })] }]
     [(RegKey.struct (PyType.classC "Widget" {} [] [] PyTypeList.nil)
         false false "", some (RTy.named 2))]
     [] "Mutable" 0 3
     (by
       intro p hp
       simp at hp
       subst hp
       exact ⟨_, _, _, _, rfl⟩)⟩

/-! ## Claim C3: fault tolerance of query reduction -/

theorem lookup_isSome_of_mem (flds : List (String × RField))
    (kf : String × RField) (h : kf ∈ flds) :
    (flds.lookup kf.1).isSome = true := by
  induction flds with
  | nil => cases h
  | cons a rest ih =>
    cases hbe : (kf.1 == a.1) with
    | true => simp [List.lookup, hbe]
    | false =>
      rcases List.mem_cons.mp h with rfl | hm
      · simp at hbe
      · simp only [List.lookup, hbe]
        exact ih hm

theorem lookup_filter_ne (flds : List (String × RField)) (k k1 : String)
    (h : k ≠ k1) :
    ((flds.filter (fun kf => kf.1 ≠ k1)).lookup k) = flds.lookup k := by
  induction flds with
  | nil => rfl
  | cons a rest ih =>
    by_cases ha : a.1 = k1
    · have hd : (decide (a.1 ≠ k1)) = false := by simp [ha]
      have hbe : (k == a.1) = false := by
        simp only [beq_eq_false_iff_ne]
        rw [ha]
        exact h
      simp only [List.filter, hd, List.lookup, hbe]
      exact ih
    · have hd : (decide (a.1 ≠ k1)) = true := by simp [ha]
      simp only [List.filter, hd, List.lookup]
      cases hbe : (k == a.1) with
      | true => rfl
      | false => exact ih

theorem lookup_none_filter (flds : List (String × RField)) (k : String)
    (q : String × RField → Bool) (h : flds.lookup k = none) :
    (flds.filter q).lookup k = none := by
  induction flds with
  | nil => rfl
  | cons a rest ih =>
    cases hbe : (k == a.1) with
    | true =>
      simp only [List.lookup, hbe] at h
      exact Option.noConfusion h
    | false =>
      simp only [List.lookup, hbe] at h
      cases hq : q a with
      | true => simp only [List.filter, hq, List.lookup, hbe]; exact ih h
      | false => simp only [List.filter, hq]; exact ih h

theorem lookup_filter_self (flds : List (String × RField)) (k1 : String) :
    ((flds.filter (fun kf => kf.1 ≠ k1)).lookup k1) = none := by
  induction flds with
  | nil => rfl
  | cons a rest ih =>
    by_cases ha : a.1 = k1
    · have hd : (decide (a.1 ≠ k1)) = false := by simp [ha]
      simp only [List.filter, hd]
      exact ih
    · have hd : (decide (a.1 ≠ k1)) = true := by simp [ha]
      have hbe : (k1 == a.1) = false := by
        simp only [beq_eq_false_iff_ne]
        exact fun hx => ha hx.symm
      simp only [List.filter, hd, List.lookup, hbe]
      exact ih

theorem insertPair_marks (g : RGraph) (l : List (Nat × String))
    (x : Nat × String) (hl : MarksOk g l)
    (hx : ∃ info flds, tinfo g x.1 = some info ∧
      info.fieldsRes = Except.ok flds ∧ (flds.lookup x.2).isSome = true) :
    MarksOk g (insertPair x l) := by
  unfold insertPair
  by_cases hm : x ∈ l
  · rw [if_pos hm]; exact hl
  · rw [if_neg hm]
    intro p hp
    rcases List.mem_cons.mp hp with rfl | hp2
    · exact hx
    · exact hl p hp2

theorem insertPair_nodup (l : List (Nat × String)) (x : Nat × String)
    (h : l.Nodup) : (insertPair x l).Nodup := by
  unfold insertPair
  by_cases hm : x ∈ l
  · rw [if_pos hm]; exact h
  · rw [if_neg hm]; exact List.nodup_cons.mpr ⟨hm, h⟩

theorem insertPair_mem (l : List (Nat × String)) (x y : Nat × String)
    (h : y ∈ l) : y ∈ insertPair x l := by
  unfold insertPair
  by_cases hm : x ∈ l
  · rw [if_pos hm]; exact h
  · rw [if_neg hm]; exact List.mem_cons.mpr (Or.inr h)

theorem insertPair_self (l : List (Nat × String)) (x : Nat × String) :
    x ∈ insertPair x l := by
  unfold insertPair
  by_cases hm : x ∈ l
  · rw [if_pos hm]; exact hm
  · rw [if_neg hm]; exact List.mem_cons.mpr (Or.inl rfl)

theorem insertNat_mem (l : List Nat) (x y : Nat) (h : y ∈ l) :
    y ∈ insertNat x l := by
  unfold insertNat
  by_cases hm : x ∈ l
  · rw [if_pos hm]; exact h
  · rw [if_neg hm]; exact List.mem_cons.mpr (Or.inr h)

theorem insertNat_self (l : List Nat) (x : Nat) : x ∈ insertNat x l := by
  unfold insertNat
  by_cases hm : x ∈ l
  · rw [if_pos hm]; exact hm
  · rw [if_neg hm]; exact List.mem_cons.mpr (Or.inl rfl)

theorem markBrokenInterfaces_fields (g : RGraph) (ifl : List Nat) :
    ∀ s : WalkSets,
      (markBrokenInterfaces g ifl s).invalidFields = s.invalidFields := by
  unfold markBrokenInterfaces
  induction ifl with
  | nil => intro s; rfl
  | cons i rest ih =>
    intro s
    simp only [List.foldl_cons, ih]
    cases h1 : tinfo g i with
    | none => rfl
    | some ii =>
      dsimp only
      cases h2 : ii.fieldsRes with
      | error e => rfl
      | ok l => rfl

theorem markBrokenInterfaces_types_mono (g : RGraph) (ifl : List Nat) :
    ∀ (s : WalkSets) (x : Nat), x ∈ s.invalidTypes →
      x ∈ (markBrokenInterfaces g ifl s).invalidTypes := by
  unfold markBrokenInterfaces
  induction ifl with
  | nil => intro s x hx; exact hx
  | cons i rest ih =>
    intro s x hx
    rw [List.foldl_cons]
    apply ih
    dsimp only
    cases h1 : tinfo g i with
    | none => exact hx
    | some ii =>
      dsimp only
      cases h2 : ii.fieldsRes with
      | error e => exact insertNat_mem _ _ _ hx
      | ok l => exact hx

/-- one field step of the walk preserves well-formed, duplicate-free field
marks. -/
theorem core_step_pre (g : RGraph) (filters : List RFilter) (meta : RMeta)
    (fuel : Nat)
    (hP : ∀ root s, MarksOk g s.invalidFields → s.invalidFields.Nodup →
      MarksOk g (invalid g filters meta fuel root s).invalidFields ∧
        (invalid g filters meta fuel root s).invalidFields.Nodup)
    (root : Nat) (kf : String × RField) (s₀ : WalkSets)
    (hm : MarksOk g s₀.invalidFields) (hn : s₀.invalidFields.Nodup)
    (hprov : ∃ info flds, tinfo g root = some info ∧
      info.fieldsRes = Except.ok flds ∧ (flds.lookup kf.1).isSome = true) :
    MarksOk g (match unwrapR kf.2.ftype with
      | RTy.named r' =>
        match tinfo g r' with
        | some ti =>
          if ti.kind = RKind.interface ∨ ti.kind = RKind.object then
            match assertFields g r' with
            | Except.ok _ => invalid g filters meta fuel r' s₀
            | Except.error _ =>
              { s₀ with invalidTypes := insertNat r' s₀.invalidTypes,
                        invalidFields := insertPair (root, kf.1) s₀.invalidFields }
          else s₀
        | none => s₀
      | _ => s₀).invalidFields ∧
    (match unwrapR kf.2.ftype with
      | RTy.named r' =>
        match tinfo g r' with
        | some ti =>
          if ti.kind = RKind.interface ∨ ti.kind = RKind.object then
            match assertFields g r' with
            | Except.ok _ => invalid g filters meta fuel r' s₀
            | Except.error _ =>
              { s₀ with invalidTypes := insertNat r' s₀.invalidTypes,
                        invalidFields := insertPair (root, kf.1) s₀.invalidFields }
          else s₀
        | none => s₀
      | _ => s₀).invalidFields.Nodup := by
  cases hc : unwrapR kf.2.ftype with
  | named r' =>
    dsimp only
    cases ht : tinfo g r' with
    | none => exact ⟨hm, hn⟩
    | some ti =>
      dsimp only
      by_cases hki : ti.kind = RKind.interface ∨ ti.kind = RKind.object
      · rw [if_pos hki]
        cases ha : assertFields g r' with
        | ok l => dsimp only; exact hP r' s₀ hm hn
        | error e =>
          dsimp only
          exact ⟨insertPair_marks g _ _ hm hprov, insertPair_nodup _ _ hn⟩
      · rw [if_neg hki]
        exact ⟨hm, hn⟩
  | scalarT k => exact ⟨hm, hn⟩
  | nonNull t => exact ⟨hm, hn⟩
  | listOf t => exact ⟨hm, hn⟩

/-- the field loop of the walk preserves well-formed, duplicate-free field
marks, given that `invalid` at the loop's fuel does. -/
theorem marks_loop (g : RGraph) (filters : List RFilter) (meta : RMeta)
    (fuel : Nat)
    (hP : ∀ root s, MarksOk g s.invalidFields → s.invalidFields.Nodup →
      MarksOk g (invalid g filters meta fuel root s).invalidFields ∧
        (invalid g filters meta fuel root s).invalidFields.Nodup) :
    ∀ (fields : List (String × RField)) (root : Nat) (info : RTypeInfo)
      (s : WalkSets) (allf : List (String × RField)),
      tinfo g root = some info → info.fieldsRes = Except.ok allf →
      (∀ kf ∈ fields, kf ∈ allf) →
      MarksOk g s.invalidFields → s.invalidFields.Nodup →
      MarksOk g
        (invalidFieldsLoop g filters meta fuel root info fields s).invalidFields ∧
      (invalidFieldsLoop g filters meta fuel root info fields s).invalidFields.Nodup := by
  intro fields
  induction fields with
  | nil =>
    intro root info s allf h1 h2 h3 hm hn
    rw [invalidFieldsLoop]
    exact ⟨hm, hn⟩
  | cons kf rest ih =>
    intro root info s allf h1 h2 h3 hm hn
    rw [invalidFieldsLoop]
    dsimp only
    have hprov : ∃ i2 f2, tinfo g root = some i2 ∧
        i2.fieldsRes = Except.ok f2 ∧ (f2.lookup kf.1).isSome = true :=
      ⟨info, allf, h1, h2, lookup_isSome_of_mem allf kf (h3 kf (by simp))⟩
    have h3r : ∀ q ∈ rest, q ∈ allf := fun q hq => h3 q (by simp [hq])
    by_cases hsk : kf.1 ∈ interfaceFieldKeys g info.interfaces
    · rw [if_pos hsk]
      exact ih root info s allf h1 h2 h3r hm hn
    · rw [if_neg hsk]
      by_cases hfl : (filters.any (fun fl => fl (to_snake_case kf.1)
          ((meta.lookup (info.name, to_snake_case kf.1)).getD []))) = true
      · rw [if_pos hfl]
        have hstep := core_step_pre g filters meta fuel hP root kf
          { s with invalidFields := insertPair (root, kf.1) s.invalidFields }
          (insertPair_marks g _ _ hm hprov) (insertPair_nodup _ _ hn) hprov
        exact ih root info _ allf h1 h2 h3r hstep.1 hstep.2
      · rw [if_neg hfl]
        have hstep := core_step_pre g filters meta fuel hP root kf s hm hn hprov
        exact ih root info _ allf h1 h2 h3r hstep.1 hstep.2

/-- the walk preserves well-formed, duplicate-free field marks. -/
theorem marks_invalid (g : RGraph) (filters : List RFilter) (meta : RMeta) :
    ∀ (fuel root : Nat) (s : WalkSets),
      MarksOk g s.invalidFields → s.invalidFields.Nodup →
      MarksOk g (invalid g filters meta fuel root s).invalidFields ∧
        (invalid g filters meta fuel root s).invalidFields.Nodup := by
  intro fuel
  induction fuel with
  | zero =>
    intro root s hm hn
    rw [invalid]
    exact ⟨hm, hn⟩
  | succ fuel ih =>
    intro root s hm hn
    rw [invalid]
    by_cases hchk : root ∈ s.checked
    · rw [if_pos hchk]
      exact ⟨hm, hn⟩
    · rw [if_neg hchk]
      dsimp only
      cases h1 : tinfo g root with
      | none => exact ⟨hm, hn⟩
      | some info =>
        dsimp only
        cases h2 : info.fieldsRes with
        | error e => exact ⟨hm, hn⟩
        | ok fields =>
          dsimp only
          have hmk : (markBrokenInterfaces g info.interfaces
              { s with checked := root :: s.checked }).invalidFields =
              s.invalidFields :=
            markBrokenInterfaces_fields g info.interfaces _
          refine marks_loop g filters meta fuel ih fields root info _ fields h1 h2
            (fun q hq => hq) ?_ ?_
          · rw [hmk]; exact hm
          · rw [hmk]; exact hn

theorem delField_ok (g : RGraph) (p : Nat × String) (info : RTypeInfo)
    (flds : List (String × RField))
    (h1 : tinfo g p.1 = some info) (h2 : info.fieldsRes = Except.ok flds)
    (h3 : (flds.lookup p.2).isSome = true) :
    delField g p = Except.ok (updateAt g p.1
      (fun i => { i with
        fieldsRes := Except.ok (flds.filter (fun kf => kf.1 ≠ p.2)) })) := by
  unfold delField
  simp only [h1, h2]
  rw [if_pos h3]

/-- the deletion loop of `reduce_query` never raises over well-formed,
duplicate-free marks, removes every marked field, and never introduces a
field. -/
theorem delete_loop_ok : ∀ (l : List (Nat × String)) (g : RGraph),
    MarksOk g l → l.Nodup →
    ∃ g', l.foldlM delField g = Except.ok g' ∧
      (∀ p ∈ l, ∃ info flds, tinfo g' p.1 = some info ∧
        info.fieldsRes = Except.ok flds ∧ flds.lookup p.2 = none) ∧
      (∀ r k info flds, tinfo g r = some info →
        info.fieldsRes = Except.ok flds → flds.lookup k = none →
        ∃ info2 flds2, tinfo g' r = some info2 ∧
          info2.fieldsRes = Except.ok flds2 ∧ flds2.lookup k = none) := by
  intro l
  induction l with
  | nil =>
    intro g hm hn
    exact ⟨g, rfl, fun p hp => absurd hp (List.not_mem_nil p),
      fun r k info flds h1 h2 h3 => ⟨info, flds, h1, h2, h3⟩⟩
  | cons p rest ih =>
    intro g hm hn
    obtain ⟨info, flds, h1, h2, h3⟩ := hm p (by simp)
    have hdel := delField_ok g p info flds h1 h2 h3
    have hnr : p ∉ rest := (List.nodup_cons.mp hn).1
    have hnd : rest.Nodup := (List.nodup_cons.mp hn).2
    have h1g2 : tinfo (updateAt g p.1
        (fun i => { i with
          fieldsRes := Except.ok (flds.filter (fun kf => kf.1 ≠ p.2)) })) p.1 =
        some { info with
          fieldsRes := Except.ok (flds.filter (fun kf => kf.1 ≠ p.2)) } :=
      tinfo_updateAt_self g p.1 _ info h1
    have hm2 : MarksOk (updateAt g p.1
        (fun i => { i with
          fieldsRes := Except.ok (flds.filter (fun kf => kf.1 ≠ p.2)) })) rest := by
      intro q hq
      obtain ⟨infoq, fldsq, hq1, hq2, hq3⟩ := hm q (by simp [hq])
      by_cases he : q.1 = p.1
      · rw [he] at hq1
        rw [hq1] at h1
        have hinfoq : infoq = info := Option.some.inj h1
        subst hinfoq
        rw [hq2] at h2
        have hfldsq : fldsq = flds := Except.ok.inj h2
        rw [hfldsq] at hq3
        refine ⟨_, _, by rw [he]; exact h1g2, rfl, ?_⟩
        have hne : q.2 ≠ p.2 := by
          intro hq2e
          apply hnr
          have : q = p := Prod.ext he hq2e
          rw [← this]
          exact hq
        rw [lookup_filter_ne flds q.2 p.2 hne]
        exact hq3
      · exact ⟨infoq, fldsq, by
          rw [tinfo_updateAt_ne g p.1 q.1 _ he]; exact hq1, hq2, hq3⟩
    obtain ⟨g', hfold, hdelall, hmono⟩ := ih _ hm2 hnd
    refine ⟨g', ?_, ?_, ?_⟩
    · simp only [List.foldlM_cons, hdel]
      exact hfold
    · intro q hq
      rcases List.mem_cons.mp hq with rfl | hq2
      · exact hmono q.1 q.2 _ _ h1g2 rfl (lookup_filter_self flds q.2)
      · exact hdelall q hq2
    · intro r k infor fldsr hr1 hr2 hr3
      by_cases he : r = p.1
      · subst he
        rw [hr1] at h1
        have hio : infor = info := Option.some.inj h1
        subst hio
        rw [hr2] at h2
        have hfo : fldsr = flds := Except.ok.inj h2
        rw [hfo] at hr3
        exact hmono p.1 k _ _ h1g2 rfl (lookup_none_filter _ _ _ hr3)
      · exact hmono r k infor fldsr
          (by rw [tinfo_updateAt_ne g p.1 r _ he]; exact hr1) hr2 hr3

/-- one field step of the walk only grows the invalid sets. -/
theorem core_step_mono (g : RGraph) (filters : List RFilter) (meta : RMeta)
    (fuel : Nat)
    (hP : ∀ root s,
      (∀ x ∈ s.invalidTypes, x ∈ (invalid g filters meta fuel root s).invalidTypes) ∧
      (∀ q ∈ s.invalidFields, q ∈ (invalid g filters meta fuel root s).invalidFields))
    (root : Nat) (kf : String × RField) (s₀ : WalkSets) :
    (∀ x ∈ s₀.invalidTypes, x ∈ (match unwrapR kf.2.ftype with
      | RTy.named r' =>
        match tinfo g r' with
        | some ti =>
          if ti.kind = RKind.interface ∨ ti.kind = RKind.object then
            match assertFields g r' with
            | Except.ok _ => invalid g filters meta fuel r' s₀
            | Except.error _ =>
              { s₀ with invalidTypes := insertNat r' s₀.invalidTypes,
                        invalidFields := insertPair (root, kf.1) s₀.invalidFields }
          else s₀
        | none => s₀
      | _ => s₀).invalidTypes) ∧
    (∀ q ∈ s₀.invalidFields, q ∈ (match unwrapR kf.2.ftype with
      | RTy.named r' =>
        match tinfo g r' with
        | some ti =>
          if ti.kind = RKind.interface ∨ ti.kind = RKind.object then
            match assertFields g r' with
            | Except.ok _ => invalid g filters meta fuel r' s₀
            | Except.error _ =>
              { s₀ with invalidTypes := insertNat r' s₀.invalidTypes,
                        invalidFields := insertPair (root, kf.1) s₀.invalidFields }
          else s₀
        | none => s₀
      | _ => s₀).invalidFields) := by
  cases hc : unwrapR kf.2.ftype with
  | named r' =>
    dsimp only
    cases ht : tinfo g r' with
    | none => exact ⟨fun x hx => hx, fun q hq => hq⟩
    | some ti =>
      dsimp only
      by_cases hki : ti.kind = RKind.interface ∨ ti.kind = RKind.object
      · rw [if_pos hki]
        cases ha : assertFields g r' with
        | ok l => exact hP r' s₀
        | error e =>
          dsimp only
          exact ⟨fun x hx => insertNat_mem _ _ _ hx,
            fun q hq => insertPair_mem _ _ _ hq⟩
      · rw [if_neg hki]
        exact ⟨fun x hx => hx, fun q hq => hq⟩
  | scalarT k => exact ⟨fun x hx => hx, fun q hq => hq⟩
  | nonNull t => exact ⟨fun x hx => hx, fun q hq => hq⟩
  | listOf t => exact ⟨fun x hx => hx, fun q hq => hq⟩

/-- the field loop only grows the invalid sets. -/
theorem loop_mono (g : RGraph) (filters : List RFilter) (meta : RMeta)
    (fuel : Nat)
    (hP : ∀ root s,
      (∀ x ∈ s.invalidTypes, x ∈ (invalid g filters meta fuel root s).invalidTypes) ∧
      (∀ q ∈ s.invalidFields, q ∈ (invalid g filters meta fuel root s).invalidFields)) :
    ∀ (fields : List (String × RField)) (root : Nat) (info : RTypeInfo)
      (s : WalkSets),
      (∀ x ∈ s.invalidTypes,
        x ∈ (invalidFieldsLoop g filters meta fuel root info fields s).invalidTypes) ∧
      (∀ q ∈ s.invalidFields,
        q ∈ (invalidFieldsLoop g filters meta fuel root info fields s).invalidFields) := by
  intro fields
  induction fields with
  | nil =>
    intro root info s
    rw [invalidFieldsLoop]
    exact ⟨fun x hx => hx, fun q hq => hq⟩
  | cons kf rest ih =>
    intro root info s
    rw [invalidFieldsLoop]
    dsimp only
    by_cases hsk : kf.1 ∈ interfaceFieldKeys g info.interfaces
    · rw [if_pos hsk]
      exact ih root info s
    · rw [if_neg hsk]
      by_cases hfl : (filters.any (fun fl => fl (to_snake_case kf.1)
          ((meta.lookup (info.name, to_snake_case kf.1)).getD []))) = true
      · rw [if_pos hfl]
        have hstep := core_step_mono g filters meta fuel hP root kf
          { s with invalidFields := insertPair (root, kf.1) s.invalidFields }
        exact ⟨fun x hx => (ih root info _).1 x (hstep.1 x hx),
          fun q hq => (ih root info _).2 q (hstep.2 q (insertPair_mem _ _ _ hq))⟩
      · rw [if_neg hfl]
        have hstep := core_step_mono g filters meta fuel hP root kf s
        exact ⟨fun x hx => (ih root info _).1 x (hstep.1 x hx),
          fun q hq => (ih root info _).2 q (hstep.2 q hq)⟩

/-- the walk only grows the invalid sets. -/
theorem invalid_mono (g : RGraph) (filters : List RFilter) (meta : RMeta) :
    ∀ (fuel root : Nat) (s : WalkSets),
      (∀ x ∈ s.invalidTypes, x ∈ (invalid g filters meta fuel root s).invalidTypes) ∧
      (∀ q ∈ s.invalidFields, q ∈ (invalid g filters meta fuel root s).invalidFields) := by
  intro fuel
  induction fuel with
  | zero =>
    intro root s
    rw [invalid]
    exact ⟨fun x hx => hx, fun q hq => hq⟩
  | succ fuel ih =>
    intro root s
    rw [invalid]
    by_cases hchk : root ∈ s.checked
    · rw [if_pos hchk]
      exact ⟨fun x hx => hx, fun q hq => hq⟩
    · rw [if_neg hchk]
      dsimp only
      cases h1 : tinfo g root with
      | none => exact ⟨fun x hx => hx, fun q hq => hq⟩
      | some info =>
        dsimp only
        cases h2 : info.fieldsRes with
        | error e => exact ⟨fun x hx => insertNat_mem _ _ _ hx, fun q hq => hq⟩
        | ok fields =>
          dsimp only
          have hmkf := markBrokenInterfaces_fields g info.interfaces
            { s with checked := root :: s.checked }
          have hmkt := markBrokenInterfaces_types_mono g info.interfaces
            { s with checked := root :: s.checked }
          have hrest := loop_mono g filters meta fuel ih fields root info
            (markBrokenInterfaces g info.interfaces
              { s with checked := root :: s.checked })
          refine ⟨fun x hx => hrest.1 x (hmkt x hx), fun q hq => ?_⟩
          apply hrest.2
          rw [hmkf]
          exact hq

/-- the walk records a broken field target: when a processed field (not
interface-inherited) returns a named object or interface type whose field
access raises, that type and the referring field end up marked invalid. -/
theorem invalidFieldsLoop_marks_broken (g : RGraph) (filters : List RFilter)
    (meta : RMeta) (fuel : Nat) :
    ∀ (fields : List (String × RField)) (root : Nat) (info : RTypeInfo)
      (s : WalkSets) (kf : String × RField) (r2 : Nat) (ti : RTypeInfo)
      (e : RErr),
      kf ∈ fields →
      ¬ kf.1 ∈ interfaceFieldKeys g info.interfaces →
      unwrapR kf.2.ftype = RTy.named r2 →
      tinfo g r2 = some ti →
      (ti.kind = RKind.interface ∨ ti.kind = RKind.object) →
      assertFields g r2 = Except.error e →
      r2 ∈ (invalidFieldsLoop g filters meta fuel root info fields s).invalidTypes ∧
      (root, kf.1) ∈
        (invalidFieldsLoop g filters meta fuel root info fields s).invalidFields := by
  intro fields
  induction fields with
  | nil =>
    intro root info s kf r2 ti e hkf hsk hcore ht hki ha
    exact absurd hkf (List.not_mem_nil kf)
  | cons a rest ih =>
    intro root info s kf r2 ti e hkf hsk hcore ht hki ha
    rw [invalidFieldsLoop]
    dsimp only
    rcases List.mem_cons.mp hkf with rfl | hmem
    · rw [if_neg hsk]
      by_cases hfl : (filters.any (fun fl => fl (to_snake_case kf.1)
          ((meta.lookup (info.name, to_snake_case kf.1)).getD []))) = true
      · rw [if_pos hfl, hcore]
        dsimp only
        rw [ht]
        dsimp only
        rw [if_pos hki, ha]
        dsimp only
        exact ⟨(loop_mono g filters meta fuel
            (fun root s => invalid_mono g filters meta fuel root s)
            rest root info _).1 r2 (insertNat_self _ _),
          (loop_mono g filters meta fuel
            (fun root s => invalid_mono g filters meta fuel root s)
            rest root info _).2 (root, kf.1) (insertPair_self _ _)⟩
      · rw [if_neg hfl, hcore]
        dsimp only
        rw [ht]
        dsimp only
        rw [if_pos hki, ha]
        dsimp only
        exact ⟨(loop_mono g filters meta fuel
            (fun root s => invalid_mono g filters meta fuel root s)
            rest root info _).1 r2 (insertNat_self _ _),
          (loop_mono g filters meta fuel
            (fun root s => invalid_mono g filters meta fuel root s)
            rest root info _).2 (root, kf.1) (insertPair_self _ _)⟩
    · exact ih root info _ kf r2 ti e hmem hsk hcore ht hki ha

/-- C3: `reduce_query` tolerates partially-broken subgraphs.  It never raises:
for every graph, registry and root there is an `ok` result.  In it, every
field the walk marked invalid has been deleted from its owning type, and the
returned registry is the input registry purged of every entry whose value is a
marked-invalid type.  And the walk itself converts a raising field target into
marks instead of an exception: whenever a processed field (not
interface-inherited) returns a named object or interface type whose field
access raises, the walk records that type, and the field that returned it, as
invalid. -/
theorem reduce_query_tolerates_broken (g : RGraph)
    (registry : List (RegKey × Option RTy)) (root : Nat)
    (filters : List RFilter) (meta : RMeta) (fuel : Nat) :
    ∃ g' reg',
      reduce_query g registry root filters meta fuel = Except.ok (g', reg') ∧
      (∀ p ∈ (invalid g filters meta fuel root {}).invalidFields,
        ∃ info flds, tinfo g' p.1 = some info ∧
          info.fieldsRes = Except.ok flds ∧ flds.lookup p.2 = none) ∧
      reg' = registry.filter (fun p =>
        match p.2 with
        | some (RTy.named r) =>
          r ∉ (invalid g filters meta fuel root {}).invalidTypes
        | _ => true) ∧
      (∀ (root2 : Nat) (info : RTypeInfo) (fields : List (String × RField))
          (kf : String × RField) (r2 : Nat) (ti : RTypeInfo) (e : RErr)
          (s2 : WalkSets),
        kf ∈ fields →
        ¬ kf.1 ∈ interfaceFieldKeys g info.interfaces →
        unwrapR kf.2.ftype = RTy.named r2 →
        tinfo g r2 = some ti →
        (ti.kind = RKind.interface ∨ ti.kind = RKind.object) →
        assertFields g r2 = Except.error e →
        r2 ∈ (invalidFieldsLoop g filters meta fuel root2 info
          fields s2).invalidTypes ∧
        (root2, kf.1) ∈ (invalidFieldsLoop g filters meta fuel root2 info
          fields s2).invalidFields) := by
  have hpre := marks_invalid g filters meta fuel root {}
    (fun p hp => absurd hp (List.not_mem_nil p)) List.nodup_nil
  obtain ⟨g', hfold, hdel, hmono⟩ := delete_loop_ok
    (invalid g filters meta fuel root {}).invalidFields g hpre.1 hpre.2
  refine ⟨g', _, ?_, hdel, rfl, ?_⟩
  · unfold reduce_query
    dsimp only
    rw [hfold]
  · intro root2 info fields kf r2 ti e s2 h1 h2 h3 h4 h5 h6
    exact invalidFieldsLoop_marks_broken g filters meta fuel fields root2 info
      s2 kf r2 ti e h1 h2 h3 h4 h5 h6
